import Mathlib

/-!
Shallow embedding of `battleships.py` (cli-battleships).

Conventions of the embedding:
  * Python coordinates are pairs of (unbounded) integers, so `Coord := Int × Int`.
  * The numpy array `Board._board` is modelled by a total function
    `grid : Nat × Nat → Nat` (only indices in `[0,n) × [0,n)` are ever read or
    written), together with numpy's indexing discipline `npIdx`: an integer
    index `i` is accepted when `-n ≤ i < n`, negative indices wrap to `i + n`,
    and anything else raises `IndexError`.
  * Fallible Python code (exceptions: `IndexError`, `ValueError` from
    `min([])` / `list.remove`, `KeyError` from the ship-variety table) is
    modelled with `Option`: `none` is an uncaught exception.
  * Cell encoding, as in the source: 0 = sea, 1 = un-hit ship section,
    2 = hit ship section, 3 = previous miss.
-/

abbrev Coord := Int × Int

/-- The four compass directions accepted by `Ship.__init__`. -/
inductive Dir where
  | N | E | S | W
deriving DecidableEq

/-- `direction_vectors` from `Ship.__init__`. -/
def dirVector : Dir → Coord
  | .N => (-1, 0)
  | .S => (1, 0)
  | .E => (0, 1)
  | .W => (0, -1)

/-- `ship_varieties` lookup from `Ship.__init__`; `none` is Python's
`KeyError` for an unsupported length. -/
def shipVarietyName : Nat → Option String
  | 2 => some "Destroyer"
  | 3 => some "Submarine"
  | 4 => some "Battleship"
  | 5 => some "Aircraft Carrier"
  | _ => none

/-- The `Ship` object: `_length`, `variety`, `condition` (remaining health,
a Python int, hence `Int`), `_points` and `endpoint`. -/
structure Ship where
  length : Nat
  variety : String
  condition : Int
  cells : List Coord
  endpoint : Coord
deriving DecidableEq

/-- `Ship.__init__(length, start, direction)`: computes the cell list
`start + i * direction_vector` for `i in range(length)`; `none` models the
`KeyError` on an unsupported length. -/
def shipPoints (length : Nat) (start : Coord) (d : Dir) : List Coord :=
  (List.range length).map (fun (i : Nat) =>
    (start.1 + (i : Int) * (dirVector d).1, start.2 + (i : Int) * (dirVector d).2))

def mkShip (length : Nat) (start : Coord) (d : Dir) : Option Ship :=
  match shipVarietyName length with
  | none => none
  | some v =>
    some ⟨length, v, (length : Int), shipPoints length start d,
      (shipPoints length start d).getLastD start⟩

/-- `Ship.damage`: unconditionally decrements `condition`. -/
def damage (s : Ship) : Ship := { s with condition := s.condition - 1 }

/-- `Ship.sunk`: `not bool(self.condition)`, i.e. `condition == 0`. -/
def sunk (s : Ship) : Bool := s.condition == 0

/-- The `Board` object: size `n`, the numpy grid, the `ships` list and
`_previous_hits`. -/
structure Board where
  n : Nat
  grid : Nat × Nat → Nat
  ships : List Ship
  previousHits : List Coord

/-- `Board.__init__(n)`: an all-sea grid, no ships, no previous hits. -/
def mkBoard (n : Nat) : Board := ⟨n, fun _ => 0, [], []⟩

/-- numpy integer indexing into one axis of an `n × n` array: indices in
`[0,n)` are taken as given, indices in `[-n,0)` wrap around, anything else
is an `IndexError` (`none`). -/
def npIdx (n : Nat) (i : Int) : Option Nat :=
  if 0 ≤ i ∧ i < (n : Int) then some i.toNat
  else if -(n : Int) ≤ i ∧ i < 0 then some (i + n).toNat
  else none

/-- `self._board[coordinate]` (read). -/
def bGet (b : Board) (c : Coord) : Option Nat :=
  match npIdx b.n c.1, npIdx b.n c.2 with
  | some r, some k => some (b.grid (r, k))
  | _, _ => none

/-- `self._board[coordinate] = v` (write). -/
def bSet (b : Board) (c : Coord) (v : Nat) : Option Board :=
  match npIdx b.n c.1, npIdx b.n c.2 with
  | some r, some k => some { b with grid := fun p => if p = (r, k) then v else b.grid p }
  | _, _ => none

/-- Both components of a coordinate lie in `[0,n)` (Python's
`in range(n)` on each component). -/
def inBn (n : Nat) (c : Coord) : Prop :=
  0 ≤ c.1 ∧ c.1 < (n : Int) ∧ 0 ≤ c.2 ∧ c.2 < (n : Int)

instance (n : Nat) (c : Coord) : Decidable (inBn n c) := by
  unfold inBn; infer_instance

/-- The generator `all(self._board[point] != 1 for point in ship)`:
short-circuits at the first cell holding 1, and raises (`none`) if a lookup
raises first. -/
def checkPoints (b : Board) : List Coord → Option Bool
  | [] => some true
  | p :: ps =>
    match bGet b p with
    | none => none
    | some v => if v = 1 then some false else checkPoints b ps

/-- `Board.is_valid_placement`: the source checks that the *endpoint* is in
bounds, and (only then) that no cell of the ship reads 1. -/
def is_valid_placement (b : Board) (s : Ship) : Option Bool :=
  if inBn b.n s.endpoint then checkPoints b s.cells else some false

/-- Marking loop of `Board.place_ship`: `self._board[point] = 1` for each
point. -/
def markCells (b : Board) : List Coord → Option Board
  | [] => some b
  | p :: ps =>
    match bSet b p 1 with
    | none => none
    | some b2 => markCells b2 ps

/-- `Board.place_ship`: appends the ship to `ships`, then marks each of its
cells 1. -/
def place_ship (b : Board) (s : Ship) : Option Board :=
  markCells { b with ships := b.ships ++ [s] } s.cells

/-- `Board.vertical_neighbours`. -/
def vertical_neighbours (b : Board) (c : Coord) : List Coord :=
  (if 0 ≤ c.1 + 1 ∧ c.1 + 1 < (b.n : Int) then [((c.1 + 1 : Int), c.2)] else []) ++
  (if 0 ≤ c.1 - 1 ∧ c.1 - 1 < (b.n : Int) then [((c.1 - 1 : Int), c.2)] else [])

/-- `Board.horizontal_neighbours`. -/
def horizontal_neighbours (b : Board) (c : Coord) : List Coord :=
  (if 0 ≤ c.2 + 1 ∧ c.2 + 1 < (b.n : Int) then [(c.1, (c.2 + 1 : Int))] else []) ++
  (if 0 ≤ c.2 - 1 ∧ c.2 - 1 < (b.n : Int) then [(c.1, (c.2 - 1 : Int))] else [])

/-- `Board.all_neighbours`. -/
def all_neighbours (b : Board) (c : Coord) : List Coord :=
  vertical_neighbours b c ++ horizontal_neighbours b c

/-- The consecutive axis positions `j+1, j+2, ...` visited by the growing
`while` loops of `can_contain_ship`: the loop stops at the first position
outside `range(n)`, so the visited positions are the run `[j+1, n)` when
`j+1 ≥ 0`, and nothing otherwise. -/
def fwdPositions (n : Nat) (j : Int) : List Int :=
  if j + 1 < 0 then [] else (List.range ((n : Int) - j - 1).toNat).map (fun (i : Nat) => j + 1 + (i : Int))

/-- The consecutive axis positions `j-1, j-2, ...` visited by the shrinking
`while` loops of `can_contain_ship`: the run `(j-1) .. 0` when `j-1 < n`,
nothing otherwise. -/
def bwdPositions (n : Nat) (j : Int) : List Int :=
  if (n : Int) ≤ j - 1 then [] else (List.range j.toNat).map (fun (i : Nat) => j - 1 - (i : Int))

/-- One `while` loop of `can_contain_ship`: walk the given positions while
the cell read is `< 3`, counting steps; a failing read is an uncaught
`IndexError`. -/
def countWhileOk (get : Int → Option Nat) : List Int → Option Nat
  | [] => some 0
  | p :: ps =>
    match get p with
    | none => none
    | some v => if v < 3 then (countWhileOk get ps).map (· + 1) else some 0

/-- `min(self.ships, key=lambda s: len(s))` followed by `len(...)`: the
minimum length among the ships; `none` models the `ValueError` raised by
`min` on an empty list. -/
def smallestShipLen : List Ship → Option Nat
  | [] => none
  | s :: rest => some (rest.foldl (fun m t => if t.length < m then t.length else m) s.length)

/-- `Board.can_contain_ship`: the four run-measuring `while` loops, then the
smallest remaining ship, then the final check on the coordinate itself. -/
def can_contain_ship (b : Board) (c : Coord) : Option Bool :=
  match countWhileOk (fun j => bGet b (c.1, j)) (fwdPositions b.n c.2),
        countWhileOk (fun j => bGet b (c.1, j)) (bwdPositions b.n c.2),
        countWhileOk (fun i => bGet b (i, c.2)) (fwdPositions b.n c.1),
        countWhileOk (fun i => bGet b (i, c.2)) (bwdPositions b.n c.1) with
  | some fx, some bx, some fy, some by2 =>
    let maxPossibleLen := max (1 + fx + bx) (1 + fy + by2)
    match smallestShipLen b.ships with
    | none => none
    | some m =>
      match bGet b c with
      | none => none
      | some v => some (decide (v < 2) && decide (m ≤ maxPossibleLen))
  | _, _, _, _ => none

/-- The loop `for point in ship: self._previous_hits.remove(point)`:
`list.remove` removes the first occurrence and raises `ValueError`
(`none`) when the value is absent. -/
def removeAll : List Coord → List Coord → Option (List Coord)
  | [], hits => some hits
  | p :: ps, hits => if p ∈ hits then removeAll ps (hits.erase p) else none

/-- The `for ship in self.ships` loop of `apply_shot`. NOTE: the source
looks the hit ship up with the *ambient* variable `target_coordinate`, not
the `coordinate` parameter; `amb` models that ambient value. When the
damaged ship is sunk it is removed from the list being iterated, so Python's
iterator skips the element that follows it (that element is kept but not
examined). Returns the new ship list, the new `_previous_hits`, and the
varieties of the ships reported sunk. -/
def hitLoop (amb : Coord) : List Ship → List Coord → Option (List Ship × List Coord × List String)
  | [], hits => some ([], hits, [])
  | s :: rest, hits =>
    if amb ∈ s.cells then
      if sunk (damage s) then
        match removeAll (damage s).cells hits with
        | none => none
        | some hits2 =>
          match rest with
          | [] => some ([], hits2, [(damage s).variety])
          | t :: rest2 =>
            match hitLoop amb rest2 hits2 with
            | none => none
            | some (ships2, hits3, msgs) =>
              some (t :: ships2, hits3, (damage s).variety :: msgs)
      else
        match hitLoop amb rest hits with
        | none => none
        | some (ships2, hits3, msgs) => some (damage s :: ships2, hits3, msgs)
    else
      match hitLoop amb rest hits with
      | none => none
      | some (ships2, hits3, msgs) => some (s :: ships2, hits3, msgs)

/-- The feedback printed by `apply_shot`: `Miss.`, or `Hit!` together with
the varieties announced as sunk. -/
inductive ShotReport where
  | miss
  | hit (sunkVarieties : List String)
deriving DecidableEq

/-- `Board.apply_shot(coordinate)` with the ambient `target_coordinate`
made explicit (the source reads the outer-scope variable of that name when
locating the hit ship). -/
def applyShotAmbient (b : Board) (coordinate amb : Coord) : Option (Board × ShotReport) :=
  match bGet b coordinate with
  | none => none
  | some v =>
    if v = 1 then
      match bSet b coordinate 2 with
      | none => none
      | some bb =>
        match hitLoop amb bb.ships (bb.previousHits ++ [coordinate]) with
        | none => none
        | some (ships2, hits2, msgs) =>
          some ({ bb with ships := ships2, previousHits := hits2 }, .hit msgs)
    else
      if v = 0 then (bSet b coordinate 3).map (fun bb => (bb, ShotReport.miss))
      else some (b, ShotReport.miss)

/-- `Board.apply_shot` as it behaves at both call sites of the program,
where the ambient `target_coordinate` is the very coordinate passed in. -/
def apply_shot (b : Board) (c : Coord) : Option (Board × ShotReport) :=
  applyShotAmbient b c c

/-- `adjacent_coordinates_in`: all ordered pairs from the list differing by
exactly (1,0) or (0,1). -/
def adjacent_coordinates_in (coords : List Coord) : List (Coord × Coord) :=
  coords.flatMap (fun c1 => coords.filterMap (fun c2 =>
    if (c1.1 - c2.1 = 1 ∧ c1.2 - c2.2 = 0) ∨ (c1.1 - c2.1 = 0 ∧ c1.2 - c2.2 = 1)
    then some (c1, c2) else none))

/-- The per-pair extension step of tier 1 of `generate_targets`:
`if coord1[0] - coord2[0]:` (nonzero row difference means a vertical pair). -/
def pairTargets (b : Board) (pr : Coord × Coord) : List Coord :=
  if pr.1.1 - pr.2.1 ≠ 0 then vertical_neighbours b pr.1 ++ vertical_neighbours b pr.2
  else horizontal_neighbours b pr.1 ++ horizontal_neighbours b pr.2

/-- The list comprehension
`[coord for coord in possible_targets if self.can_contain_ship(coord)]`. -/
def filterCanContain (b : Board) : List Coord → Option (List Coord)
  | [] => some []
  | c :: cs =>
    match can_contain_ship b c with
    | none => none
    | some keep =>
      match filterCanContain b cs with
      | none => none
      | some r => some (if keep then c :: r else r)

/-- Tier 1 of `generate_targets`: per adjacent pair, extend the candidate
pool and re-filter it in place. -/
def tier1Loop (b : Board) : List (Coord × Coord) → List Coord → Option (List Coord)
  | [], acc => some acc
  | pr :: rest, acc =>
    match filterCanContain b (acc ++ pairTargets b pr) with
    | none => none
    | some acc2 => tier1Loop b rest acc2

/-- Tier 2 of `generate_targets`: per previous hit, add all neighbours and
re-filter in place. -/
def tier2Loop (b : Board) : List Coord → List Coord → Option (List Coord)
  | [], acc => some acc
  | h :: rest, acc =>
    match filterCanContain b (acc ++ all_neighbours b h) with
    | none => none
    | some acc2 => tier2Loop b rest acc2

/-- All board coordinates in row-major order (tier 3's scan order). -/
def allCoords (n : Nat) : List Coord :=
  (List.range n).flatMap (fun (r : Nat) => (List.range n).map (fun (k : Nat) => ((r : Int), (k : Int))))

/-- `Board.generate_targets`: three-tier fallback search. -/
def generate_targets (b : Board) : Option (List Coord) :=
  match (if (adjacent_coordinates_in b.previousHits).isEmpty then some []
         else tier1Loop b (adjacent_coordinates_in b.previousHits) []) with
  | none => none
  | some t1 =>
    if t1 ≠ [] then some t1 else
    match tier2Loop b b.previousHits [] with
    | none => none
    | some t2 =>
      if t2 ≠ [] then some t2 else filterCanContain b (allCoords b.n)

/-- The unfiltered tier-1 candidate pool: the line-direction neighbours of
both endpoints of every adjacent pair of previous hits, in loop order. -/
def tier1Pool (b : Board) : List Coord :=
  (adjacent_coordinates_in b.previousHits).flatMap (pairTargets b)

/-- The inner `while True` of `Board.initialise_ships_randomly`, placing one
ship: sample start/direction from the stream, retry while invalid. The
source has no retry bound; `fuel` is a step budget added by the embedding,
and `none` for every `fuel` means the loop never returns. `i` indexes the
stream of samples. -/
def tryPlaceLoop (b : Board) (len : Nat) (stream : Nat → Coord × Dir) : Nat → Nat → Option (Board × Nat)
  | 0, _ => none
  | fuel + 1, i =>
    match mkShip len (stream i).1 (stream i).2 with
    | none => none
    | some ship =>
      match is_valid_placement b ship with
      | none => none
      | some true => (place_ship b ship).map (fun b2 => (b2, i + 1))
      | some false => tryPlaceLoop b len stream fuel (i + 1)

/-- `Board.initialise_ships_randomly`: place each requested length in turn. -/
def initialise_ships_randomly (stream : Nat → Coord × Dir) (fuel : Nat) :
    Board → List Nat → Nat → Option Board
  | b, [], _ => some b
  | b, len :: rest, i =>
    match tryPlaceLoop b len stream fuel i with
    | none => none
    | some (b2, i2) => initialise_ships_randomly stream fuel b2 rest i2

/-! ### Concrete boards used by the counterexample and witness theorems -/

/-- A length-2 ship standing at (1,0),(2,0), already hit at (1,0). -/
def shipA : Ship := ⟨2, "Destroyer", 1, [(1, 0), (2, 0)], (2, 0)⟩

/-- A length-2 ship standing at (1,1),(2,1), already hit at (1,1). -/
def shipB : Ship := ⟨2, "Destroyer", 1, [(1, 1), (2, 1)], (2, 1)⟩

/-- Grid of `exC1c`: hits at (1,0),(1,1), a miss at (1,2), un-hit ship
sections at (2,0),(2,1). -/
def exC1cGrid : Nat × Nat → Nat := fun p =>
  if p = (1, 0) then 2 else if p = (1, 1) then 2 else if p = (1, 2) then 3
  else if p = (2, 0) then 1 else if p = (2, 1) then 1 else 0

/-- A 3×3 board with two vertical ships hit once each on row 1, and a miss
at (1,2): the two unresolved hits are horizontally adjacent, yet every
tier-1 line-extension cell is already resolved. -/
def exC1c : Board := ⟨3, exC1cGrid, [shipA, shipB], [(1, 0), (1, 1)]⟩

/-- Grid of `exC1w`: a submarine at (2,1),(2,2),(2,3) hit at (2,1),(2,2). -/
def exC1wGrid : Nat × Nat → Nat := fun p =>
  if p = (2, 1) then 2 else if p = (2, 2) then 2 else if p = (2, 3) then 1 else 0

/-- The submarine of `exC1w` with one section left. -/
def shipW : Ship := ⟨3, "Submarine", 1, [(2, 1), (2, 2), (2, 3)], (2, 3)⟩

/-- A 5×5 board with two adjacent unresolved hits whose tier-1 pool is
non-empty. -/
def exC1w : Board := ⟨5, exC1wGrid, [shipW], [(2, 1), (2, 2)]⟩

/-- Grid of `exC2`: an intact length-2 ship on row 0. -/
def exC2grid : Nat × Nat → Nat := fun p =>
  if p = (0, 0) then 1 else if p = (0, 1) then 1 else 0

/-- The intact ship of `exC2`. -/
def exC2ship : Ship := ⟨2, "Destroyer", 2, [(0, 0), (0, 1)], (0, 1)⟩

/-- A 2×2 board with one intact length-2 ship at (0,0),(0,1). -/
def exC2 : Board := ⟨2, exC2grid, [exC2ship], []⟩

/-- The ship built by `Ship(2, (-1, 0), 'S')`: its first cell (-1,0) is off
the board, its endpoint (0,0) is on it. -/
def exC3ship : Ship := ⟨2, "Destroyer", 2, [(-1, 0), (0, 0)], (0, 0)⟩

/-- An already-sunk ship (condition 0). -/
def sunkShip : Ship := ⟨2, "Destroyer", 0, [(0, 0), (0, 1)], (0, 1)⟩

/-- The board obtained by placing `Ship(2, (0,0), 'E')` on an empty 2×2
board. -/
def wB1 : Board := (place_ship (mkBoard 2) ((mkShip 2 (0, 0) Dir.E).getD exC2ship)).getD (mkBoard 2)

/-- `wB1` after a first shot at (0,0) (a hit). -/
def wB2 : Board := ((apply_shot wB1 (0, 0)).getD (mkBoard 2, ShotReport.miss)).1

/-! ### Spec-side definitions used for refinement comparison -/

/-- The placement-validity predicate in the words of the spec: every cell of
the ship lies within `[0,n) × [0,n)` and no cell coincides with a cell
currently marked `UnhitShip` (value 1). -/
def isValidPlacementSpec (b : Board) (s : Ship) : Prop :=
  ∀ p ∈ s.cells, inBn b.n p ∧ bGet b p ≠ some 1

instance (b : Board) (s : Ship) : Decidable (isValidPlacementSpec b s) := by
  unfold isValidPlacementSpec; infer_instance

/-- A 1×1 board whose only cell is a hit ship section. -/
def exC6hit : Board := ⟨1, fun _ => 2, [], []⟩

/-- A 1×1 board whose only cell is a previous miss. -/
def exC6miss : Board := ⟨1, fun _ => 3, [], []⟩

/-- Spec-words definition for claim C5: the length of the longest run of
non-`Miss` cells through position `k` of a line of `n` cells with values
`vals` — the largest interval (within bounds) containing `k` all of whose
cells differ from 3. -/
def nonMissRunSpec (vals : Nat → Nat) (n k : Nat) : Nat :=
  Finset.sup ((Finset.range n) ×ˢ (Finset.range n)) (fun lh =>
    if lh.1 ≤ k ∧ k ≤ lh.2 ∧ ∀ j ∈ Finset.Icc lh.1 lh.2, vals j ≠ 3
    then lh.2 + 1 - lh.1 else 0)

/-- Well-formedness of a placed ship: the cell list realises the recorded
length (which is at least 2), has no duplicates, and lies on the board. -/
def ShipWf (n : Nat) (S : Ship) : Prop :=
  S.cells.length = S.length ∧ 2 ≤ S.length ∧ S.cells.Nodup ∧ ∀ p ∈ S.cells, inBn n p

/-- The number of cells of `S` recorded in `_previous_hits`. -/
def hitCount (S : Ship) (hits : List Coord) : Nat :=
  (S.cells.filter (fun p => decide (p ∈ hits))).length

/-- The inductive invariant maintained by the shot phase. -/
structure BInv (b : Board) : Prop where
  wf : ∀ S ∈ b.ships, ShipWf b.n S
  disj : b.ships.Pairwise (fun S T => ∀ p ∈ S.cells, p ∉ T.cells)
  pos : ∀ S ∈ b.ships, 1 ≤ S.condition
  cond_eq : ∀ S ∈ b.ships,
    S.condition = (S.length : Int) - (hitCount S b.previousHits : Int)
  hits_nodup : b.previousHits.Nodup
  hits_two : ∀ p ∈ b.previousHits, bGet b p = some 2

/-- The invariant of the placement phase. -/
structure PInv (b : Board) : Prop where
  wf : ∀ S ∈ b.ships, ShipWf b.n S
  disj : b.ships.Pairwise (fun S T => ∀ p ∈ S.cells, p ∉ T.cells)
  full : ∀ S ∈ b.ships, S.condition = (S.length : Int)
  hits : b.previousHits = []
  grid1 : ∀ p : Coord, inBn b.n p → (bGet b p = some 1 ↔ ∃ S ∈ b.ships, p ∈ S.cells)

/-- Boards produced by the placement phase: an empty board followed by
`place_ship` calls on ships built by the constructor, with in-bounds start
coordinates (the two placement paths of the program sample or read starts
on the board) and validated by `is_valid_placement`. -/
inductive Placed : Board → Prop where
  | init (n : Nat) : Placed (mkBoard n)
  | place {b b2 : Board} {l : Nat} {st : Coord} {d : Dir} {s : Ship} :
      Placed b → mkShip l st d = some s → inBn b.n st →
      is_valid_placement b s = some true → place_ship b s = some b2 → Placed b2

/-- Boards reachable by the program: valid placements followed by
(successful) `apply_shot` calls at arbitrary integer coordinates. -/
inductive Reach : Board → Prop where
  | placed {b : Board} : Placed b → Reach b
  | shot {b b2 : Board} {c : Coord} {rep : ShotReport} :
      Reach b → apply_shot b c = some (b2, rep) → Reach b2

/-- The damaged ship of `wB2` (one section hit, one left). -/
def wShipD : Ship := ⟨2, "Destroyer", 1, [(0, 0), (0, 1)], (0, 1)⟩

/-- `wB2` after the sinking shot at (0,1). -/
def wB3 : Board := ((apply_shot wB2 (0, 1)).getD (mkBoard 2, ShotReport.miss)).1

/-! ### Basic lemmas about numpy indexing -/

theorem npIdx_natCast {n k : Nat} (h : k < n) : npIdx n (k : Int) = some k := by
  unfold npIdx
  rw [if_pos ⟨Int.natCast_nonneg k, by exact_mod_cast h⟩]
  simp

theorem npIdx_lt {n : Nat} {i : Int} {r : Nat} (h : npIdx n i = some r) : r < n := by
  unfold npIdx at h
  split at h
  · rename_i hc
    cases h
    omega
  · split at h
    · rename_i hc
      cases h
      omega
    · cases h

theorem npIdx_nonneg_eq {n : Nat} {i : Int} {r : Nat} (hi : 0 ≤ i)
    (h : npIdx n i = some r) : i = (r : Int) := by
  unfold npIdx at h
  split at h
  · cases h; omega
  · split at h
    · rename_i hc; omega
    · cases h

theorem bGet_inBn {b : Board} {p : Coord} (h : inBn b.n p) :
    bGet b p = some (b.grid (p.1.toNat, p.2.toNat)) := by
  obtain ⟨h1, h2, h3, h4⟩ := h
  unfold bGet
  have e1 : npIdx b.n p.1 = some p.1.toNat := by
    unfold npIdx; rw [if_pos ⟨h1, h2⟩]
  have e2 : npIdx b.n p.2 = some p.2.toNat := by
    unfold npIdx; rw [if_pos ⟨h3, h4⟩]
  rw [e1, e2]

theorem bSet_inv {b : Board} {c : Coord} {w : Nat} {b2 : Board}
    (hset : bSet b c w = some b2) :
    ∃ r k, npIdx b.n c.1 = some r ∧ npIdx b.n c.2 = some k ∧
      b2 = { b with grid := fun p => if p = (r, k) then w else b.grid p } := by
  unfold bSet at hset
  cases h1 : npIdx b.n c.1 with
  | none => rw [h1] at hset; cases hset
  | some r =>
    cases h2 : npIdx b.n c.2 with
    | none => rw [h1, h2] at hset; cases hset
    | some k =>
      rw [h1, h2] at hset
      exact ⟨r, k, rfl, rfl, (Option.some_inj.mp hset).symm⟩

theorem bSet_of_npIdx {b : Board} {c : Coord} {w : Nat} {r k : Nat}
    (h1 : npIdx b.n c.1 = some r) (h2 : npIdx b.n c.2 = some k) :
    bSet b c w = some { b with grid := fun p => if p = (r, k) then w else b.grid p } := by
  unfold bSet; rw [h1, h2]

theorem bGet_of_npIdx {b : Board} {c : Coord} {r k : Nat}
    (h1 : npIdx b.n c.1 = some r) (h2 : npIdx b.n c.2 = some k) :
    bGet b c = some (b.grid (r, k)) := by
  unfold bGet; rw [h1, h2]

theorem bGet_some_npIdx {b : Board} {c : Coord} {v : Nat} (h : bGet b c = some v) :
    ∃ r k, npIdx b.n c.1 = some r ∧ npIdx b.n c.2 = some k ∧ b.grid (r, k) = v := by
  unfold bGet at h
  cases h1 : npIdx b.n c.1 with
  | none => rw [h1] at h; cases h
  | some r =>
    cases h2 : npIdx b.n c.2 with
    | none => rw [h1, h2] at h; cases h
    | some k =>
      rw [h1, h2] at h
      exact ⟨r, k, rfl, rfl, Option.some_inj.mp h⟩

theorem bGet_none_fst {b : Board} {c : Coord} (h : npIdx b.n c.1 = none) :
    bGet b c = none := by
  unfold bGet; rw [h]

theorem bGet_none_snd {b : Board} {c : Coord} (h : npIdx b.n c.2 = none) :
    bGet b c = none := by
  unfold bGet
  rw [h]
  cases npIdx b.n c.1 <;> rfl

theorem bGet_bSet_cases {b : Board} {c : Coord} {w : Nat} {b2 : Board}
    (hset : bSet b c w = some b2) (p : Coord) :
    bGet b2 p = bGet b p ∨
      (npIdx b.n p.1 = npIdx b.n c.1 ∧ npIdx b.n p.2 = npIdx b.n c.2 ∧
        bGet b2 p = some w) := by
  obtain ⟨r, k, h1, h2, rfl⟩ := bSet_inv hset
  cases g1 : npIdx b.n p.1 with
  | none =>
    left
    rw [bGet_none_fst (b := { b with grid := fun q => if q = (r, k) then w else b.grid q }) g1,
        bGet_none_fst g1]
  | some r2 =>
    cases g2 : npIdx b.n p.2 with
    | none =>
      left
      rw [bGet_none_snd (b := { b with grid := fun q => if q = (r, k) then w else b.grid q }) g2,
          bGet_none_snd g2]
    | some k2 =>
      have e2 : bGet { b with grid := fun q => if q = (r, k) then w else b.grid q } p
          = some (if (r2, k2) = (r, k) then w else b.grid (r2, k2)) :=
        bGet_of_npIdx (b := { b with grid := fun q => if q = (r, k) then w else b.grid q }) g1 g2
      have e1 : bGet b p = some (b.grid (r2, k2)) := bGet_of_npIdx g1 g2
      by_cases hpq : (r2, k2) = (r, k)
      · right
        have hr : r2 = r := congrArg Prod.fst hpq
        have hk : k2 = k := congrArg Prod.snd hpq
        refine ⟨?_, ?_, ?_⟩
        · rw [h1, hr]
        · rw [h2, hk]
        · rw [e2, if_pos hpq]
      · left
        rw [e2, if_neg hpq, e1]

/-! ### Lemmas about ship construction -/

theorem shipVarietyName_some {l : Nat} {v : String} (h : shipVarietyName l = some v) :
    2 ≤ l ∧ l ≤ 5 := by
  rcases l with _ | _ | _ | _ | _ | _ | l <;> simp [shipVarietyName] at h <;> omega

theorem getLastD_range_map {α : Type} (l : Nat) (hl : 0 < l) (f : Nat → α) (d : α) :
    (((List.range l).map f).getLastD d) = f (l - 1) := by
  obtain ⟨m, rfl⟩ : ∃ m, l = m + 1 := ⟨l - 1, by omega⟩
  rw [List.range_succ, List.map_append]
  simp

theorem mkShip_some {l : Nat} {st : Coord} {d : Dir} {s : Ship}
    (h : mkShip l st d = some s) :
    2 ≤ l ∧ l ≤ 5 ∧ s.length = l ∧ s.condition = (l : Int) ∧
    s.cells = shipPoints l st d ∧
    s.endpoint = (st.1 + ((l - 1 : Nat) : Int) * (dirVector d).1,
                  st.2 + ((l - 1 : Nat) : Int) * (dirVector d).2) := by
  unfold mkShip at h
  cases hv : shipVarietyName l with
  | none => rw [hv] at h; cases h
  | some v =>
    rw [hv] at h
    obtain ⟨hl2, hl5⟩ := shipVarietyName_some hv
    cases h
    refine ⟨hl2, hl5, rfl, rfl, rfl, ?_⟩
    show (shipPoints l st d).getLastD st = _
    unfold shipPoints
    exact getLastD_range_map l (by omega) _ st

theorem mkShip_cells_length {l : Nat} {st : Coord} {d : Dir} {s : Ship}
    (h : mkShip l st d = some s) : s.cells.length = l := by
  obtain ⟨-, -, -, -, hc, -⟩ := mkShip_some h
  rw [hc]
  unfold shipPoints
  simp

theorem mkShip_mem_cells {l : Nat} {st : Coord} {d : Dir} {s : Ship}
    (h : mkShip l st d = some s) (p : Coord) :
    p ∈ s.cells ↔ ∃ i, i < l ∧
      p = (st.1 + (i : Int) * (dirVector d).1, st.2 + (i : Int) * (dirVector d).2) := by
  obtain ⟨-, -, -, -, hc, -⟩ := mkShip_some h
  rw [hc]
  unfold shipPoints
  simp only [List.mem_map, List.mem_range]
  constructor
  · rintro ⟨i, hi, rfl⟩; exact ⟨i, hi, rfl⟩
  · rintro ⟨i, hi, rfl⟩; exact ⟨i, hi, rfl⟩

theorem mkShip_endpoint_mem {l : Nat} {st : Coord} {d : Dir} {s : Ship}
    (h : mkShip l st d = some s) : s.endpoint ∈ s.cells := by
  obtain ⟨hl2, -, -, -, -, he⟩ := mkShip_some h
  rw [mkShip_mem_cells h]
  exact ⟨l - 1, by omega, he⟩

theorem mkShip_cells_nodup {l : Nat} {st : Coord} {d : Dir} {s : Ship}
    (h : mkShip l st d = some s) : s.cells.Nodup := by
  obtain ⟨-, -, -, -, hc, -⟩ := mkShip_some h
  rw [hc]
  unfold shipPoints
  refine List.Nodup.map ?_ (List.nodup_range _)
  intro i j hij
  cases d <;> (simp [dirVector] at hij; omega)

theorem mkShip_cells_inBn {n l : Nat} {st : Coord} {d : Dir} {s : Ship}
    (h : mkShip l st d = some s) (hst : inBn n st) (hend : inBn n s.endpoint) :
    ∀ p ∈ s.cells, inBn n p := by
  intro p hp
  obtain ⟨hl2, -, -, -, -, he⟩ := mkShip_some h
  rw [mkShip_mem_cells h] at hp
  obtain ⟨i, hi, rfl⟩ := hp
  rw [he] at hend
  obtain ⟨a1, a2, a3, a4⟩ := hst
  obtain ⟨e1, e2, e3, e4⟩ := hend
  cases d <;>
    (simp only [dirVector] at *
     refine ⟨?_, ?_, ?_, ?_⟩ <;> omega)

/-! ### Lemmas about placement checking -/

theorem checkPoints_true {b : Board} {ps : List Coord} (h : checkPoints b ps = some true) :
    ∀ p ∈ ps, ∃ v, bGet b p = some v ∧ v ≠ 1 := by
  induction ps with
  | nil => intro p hp; cases hp
  | cons q qs ih =>
    unfold checkPoints at h
    cases hq : bGet b q with
    | none => rw [hq] at h; cases h
    | some v =>
      rw [hq] at h
      dsimp only at h
      by_cases hv : v = 1
      · rw [if_pos hv] at h; cases h
      · rw [if_neg hv] at h
        intro p hp
        cases hp with
        | head => exact ⟨v, hq, hv⟩
        | tail _ hmem => exact ih h p hmem

theorem checkPoints_of_all {b : Board} {ps : List Coord}
    (h : ∀ p ∈ ps, ∃ v, bGet b p = some v ∧ v ≠ 1) :
    checkPoints b ps = some true := by
  induction ps with
  | nil => rfl
  | cons q qs ih =>
    obtain ⟨v, hq, hv⟩ := h q (List.mem_cons_self q qs)
    unfold checkPoints
    rw [hq]
    dsimp only
    rw [if_neg hv]
    exact ih (fun p hp => h p (List.mem_cons_of_mem q hp))

/-- Claim C3 (amended part): for ships whose start coordinate is on the
board — the only ships the program ever asks about — `is_valid_placement`
agrees exactly with the spec's predicate (all cells in bounds and free of
un-hit ship sections). -/
theorem is_valid_placement_iff_spec :
    ∀ (b : Board) (l : Nat) (st : Coord) (d : Dir) (s : Ship),
      mkShip l st d = some s → inBn b.n st →
      (is_valid_placement b s = some true ↔ isValidPlacementSpec b s) := by
  intro b l st d s hmk hst
  constructor
  · intro hv
    unfold is_valid_placement at hv
    split at hv
    · rename_i hend
      intro p hp
      have hin := mkShip_cells_inBn hmk hst hend p hp
      obtain ⟨v, hvp, hne⟩ := checkPoints_true hv p hp
      refine ⟨hin, ?_⟩
      rw [hvp]
      intro hcon
      exact hne (Option.some_inj.mp hcon)
    · cases hv
  · intro hspec
    unfold is_valid_placement
    rw [if_pos (hspec s.endpoint (mkShip_endpoint_mem hmk)).1]
    apply checkPoints_of_all
    intro p hp
    obtain ⟨hin, hne⟩ := hspec p hp
    refine ⟨b.grid (p.1.toNat, p.2.toNat), bGet_inBn hin, ?_⟩
    intro hcon
    exact hne (by rw [bGet_inBn hin, hcon])

/-- Claim C3 (counterexample): `Ship(2, (-1,0), 'S')` has its rear cell
(-1,0) off the board, yet `is_valid_placement` accepts it on an empty 2×2
board — the endpoint bound check passes and the numpy read at (-1,0) wraps
around to row 1. -/
theorem is_valid_placement_accepts_oob :
    mkShip 2 (-1, 0) Dir.S = some exC3ship ∧
    is_valid_placement (mkBoard 2) exC3ship = some true ∧
    ¬ isValidPlacementSpec (mkBoard 2) exC3ship := by
  refine ⟨by decide, by decide, ?_⟩
  intro h
  have := (h (-1, 0) (by decide)).1
  exact absurd this (by decide)

/-- Witness for `is_valid_placement_iff_spec` at a concrete in-bounds ship. -/
theorem is_valid_placement_iff_spec_witness :
    is_valid_placement (mkBoard 2) exC2ship = some true ↔
      isValidPlacementSpec (mkBoard 2) exC2ship :=
  is_valid_placement_iff_spec (mkBoard 2) 2 (0, 0) Dir.E exC2ship (by decide) (by decide)

/-! ### Claim C8: Ship.damage -/

/-- Claim C8 (amended part): `damage` always just decrements
`remaining_health` by one; there is no guard of any kind in `Ship.damage`. -/
theorem damage_decrements : ∀ s : Ship, (damage s).condition = s.condition - 1 ∧
    (damage s).length = s.length ∧ (damage s).cells = s.cells ∧
    (damage s).variety = s.variety :=
  fun _ => ⟨rfl, rfl, rfl, rfl⟩

/-- Claim C8 (counterexample): calling `damage` on an already-sunk ship
(condition 0) raises no error and drives the health to -1 — there is no
`OverdamageError` anywhere in the code. -/
theorem damage_underflows_when_sunk :
    sunk sunkShip = true ∧ (damage sunkShip).condition = -1 := by decide

/-! ### Claim C2: the ambient-variable aliasing bug in apply_shot -/

/-- Claim C2 (refuted): `apply_shot` locates the hit ship with the ambient
`target_coordinate`, not its `coordinate` parameter. On `exC2`, shooting
(0,0) (an un-hit ship cell of `exC2ship`) while the ambient variable holds
(1,1) damages no ship at all (health stays 2), whereas the same shot with
the ambient variable equal to the parameter damages the ship (health 1). -/
theorem apply_shot_uses_ambient_variable :
    bGet exC2 (0, 0) = some 1 ∧
    (0, 0) ∈ exC2ship.cells ∧ exC2.ships = [exC2ship] ∧
    (applyShotAmbient exC2 (0, 0) (1, 1)).map (fun x => x.1.ships.map Ship.condition)
      = some [2] ∧
    (applyShotAmbient exC2 (0, 0) (0, 0)).map (fun x => x.1.ships.map Ship.condition)
      = some [1] := by decide

/-! ### Claim C6: shots at non-ship cells -/

/-- Claim C6: a shot at a cell already holding `HitShip` (2) or `Miss` (3)
reports a miss and leaves the board untouched; a shot at a plain `Sea` cell
(0) reports a miss, marks exactly that cell 3, and changes nothing else
(ships, previous hits, and every other grid cell are untouched). -/
theorem apply_shot_nonship_cases :
    ∀ (b : Board) (c : Coord) (v : Nat), bGet b c = some v →
      ((v = 2 ∨ v = 3) → apply_shot b c = some (b, ShotReport.miss)) ∧
      (v = 0 → ∃ b2, apply_shot b c = some (b2, ShotReport.miss) ∧
        b2.n = b.n ∧ b2.ships = b.ships ∧ b2.previousHits = b.previousHits ∧
        bGet b2 c = some 3 ∧
        ∀ p : Coord, bGet b2 p ≠ bGet b p →
          npIdx b.n p.1 = npIdx b.n c.1 ∧ npIdx b.n p.2 = npIdx b.n c.2 ∧
            bGet b2 p = some 3) := by
  intro b c v hv
  constructor
  · rintro (rfl | rfl) <;>
      (unfold apply_shot applyShotAmbient
       rw [hv]
       dsimp only
       norm_num)
  · rintro rfl
    obtain ⟨r, k, h1, h2, hg⟩ := bGet_some_npIdx hv
    have hset := bSet_of_npIdx (b := b) (c := c) (w := 3) h1 h2
    have happ : apply_shot b c =
        some ({ b with grid := fun q => if q = (r, k) then 3 else b.grid q },
          ShotReport.miss) := by
      unfold apply_shot applyShotAmbient
      rw [hv]
      dsimp only
      norm_num
      rw [hset]
    refine ⟨_, happ, rfl, rfl, rfl, ?_, ?_⟩
    · have := bGet_of_npIdx
        (b := { b with grid := fun q => if q = (r, k) then 3 else b.grid q }) h1 h2
      rw [this]
      simp
    · intro p hne
      rcases bGet_bSet_cases hset p with heq | ⟨hh1, hh2, hval⟩
      · exact absurd heq hne
      · exact ⟨hh1, hh2, hval⟩

/-- Witness for `apply_shot_nonship_cases`: concrete 1×1 boards holding a
hit cell, a miss cell, and a fresh sea cell. -/
theorem apply_shot_nonship_cases_witness :
    apply_shot exC6hit (0, 0) = some (exC6hit, ShotReport.miss) ∧
    apply_shot exC6miss (0, 0) = some (exC6miss, ShotReport.miss) ∧
    (∃ b2, apply_shot (mkBoard 1) (0, 0) = some (b2, ShotReport.miss) ∧
      b2.n = (mkBoard 1).n ∧ b2.ships = (mkBoard 1).ships ∧
      b2.previousHits = (mkBoard 1).previousHits ∧
      bGet b2 (0, 0) = some 3 ∧
      ∀ p : Coord, bGet b2 p ≠ bGet (mkBoard 1) p →
        npIdx (mkBoard 1).n p.1 = npIdx (mkBoard 1).n (0, 0).1 ∧
        npIdx (mkBoard 1).n p.2 = npIdx (mkBoard 1).n (0, 0).2 ∧
          bGet b2 p = some 3) :=
  ⟨(apply_shot_nonship_cases exC6hit (0, 0) 2 rfl).1 (Or.inl rfl),
   (apply_shot_nonship_cases exC6miss (0, 0) 3 rfl).1 (Or.inr rfl),
   (apply_shot_nonship_cases (mkBoard 1) (0, 0) 0 rfl).2 rfl⟩

/-! ### Claim C9: unbounded random-placement loop -/

/-- Claim C9 (refuted by the code): on a 1×1 board — too small for any
ship — the random placement loop for a length-2 ship returns nothing no
matter how many iterations it is allowed: it never terminates and never
surfaces any error value (the code has no `FleetDoesNotFit`), for every
possible stream of direction samples (the start sample on a 1×1 board is
always (0,0)). -/
theorem random_placement_loops_forever :
    (∀ (dirs : Nat → Dir) (fuel i : Nat),
        tryPlaceLoop (mkBoard 1) 2 (fun j => ((0, 0), dirs j)) fuel i = none) ∧
    (∀ (dirs : Nat → Dir) (fuel i : Nat),
        initialise_ships_randomly (fun j => ((0, 0), dirs j)) fuel (mkBoard 1) [2] i
          = none) := by
  have hdir : ∀ d : Dir, ∃ s, mkShip 2 ((0 : Int), (0 : Int)) d = some s ∧
      is_valid_placement (mkBoard 1) s = some false := by
    intro d
    cases d
    · exact ⟨_, rfl, by decide⟩
    · exact ⟨_, rfl, by decide⟩
    · exact ⟨_, rfl, by decide⟩
    · exact ⟨_, rfl, by decide⟩
  have main : ∀ (dirs : Nat → Dir) (fuel i : Nat),
      tryPlaceLoop (mkBoard 1) 2 (fun j => ((0, 0), dirs j)) fuel i = none := by
    intro dirs fuel
    induction fuel with
    | zero => intro i; rfl
    | succ m ih =>
      intro i
      obtain ⟨s, hs, hval⟩ := hdir (dirs i)
      unfold tryPlaceLoop
      dsimp only
      rw [hs]
      dsimp only
      rw [hval]
      exact ih (i + 1)
  refine ⟨main, ?_⟩
  intro dirs fuel i
  unfold initialise_ships_randomly
  rw [main dirs fuel i]

/-! ### Claim C10: targeting with an empty fleet -/

theorem can_contain_ship_no_ships {b : Board} (hs : b.ships = []) (c : Coord) :
    can_contain_ship b c = none := by
  unfold can_contain_ship
  rw [hs]
  generalize countWhileOk (fun j => bGet b (c.1, j)) (fwdPositions b.n c.2) = o1
  generalize countWhileOk (fun j => bGet b (c.1, j)) (bwdPositions b.n c.2) = o2
  generalize countWhileOk (fun i => bGet b (i, c.2)) (fwdPositions b.n c.1) = o3
  generalize countWhileOk (fun i => bGet b (i, c.2)) (bwdPositions b.n c.1) = o4
  cases o1 <;> cases o2 <;> cases o3 <;> cases o4 <;> rfl

theorem filterCanContain_no_ships {b : Board} (hs : b.ships = []) :
    ∀ l : List Coord, filterCanContain b l = if l = [] then some [] else none := by
  intro l
  cases l with
  | nil => rfl
  | cons c cs =>
    rw [if_neg (by simp)]
    unfold filterCanContain
    rw [can_contain_ship_no_ships hs c]

theorem tier1Loop_no_ships {b : Board} (hs : b.ships = []) :
    ∀ prs, tier1Loop b prs [] = none ∨ tier1Loop b prs [] = some [] := by
  intro prs
  induction prs with
  | nil => right; rfl
  | cons pr rest ih =>
    unfold tier1Loop
    rw [filterCanContain_no_ships hs]
    by_cases hp : ([] : List Coord) ++ pairTargets b pr = []
    · rw [if_pos hp]
      exact ih
    · rw [if_neg hp]
      left
      rfl

theorem tier2Loop_no_ships {b : Board} (hs : b.ships = []) :
    ∀ hsl, tier2Loop b hsl [] = none ∨ tier2Loop b hsl [] = some [] := by
  intro hsl
  induction hsl with
  | nil => right; rfl
  | cons h rest ih =>
    unfold tier2Loop
    rw [filterCanContain_no_ships hs]
    by_cases hp : ([] : List Coord) ++ all_neighbours b h = []
    · rw [if_pos hp]
      exact ih
    · rw [if_neg hp]
      left
      rfl

theorem allCoords_ne_nil {n : Nat} (hn : 1 ≤ n) : allCoords n ≠ [] := by
  apply List.ne_nil_of_mem (a := ((0 : Int), (0 : Int)))
  unfold allCoords
  refine List.mem_flatMap.mpr ⟨0, List.mem_range.mpr (by omega), ?_⟩
  exact List.mem_map.mpr ⟨0, List.mem_range.mpr (by omega), rfl⟩

theorem generate_targets_no_ships {b : Board} (hs : b.ships = []) (hn : 1 ≤ b.n) :
    generate_targets b = none := by
  have h3 : filterCanContain b (allCoords b.n) = none := by
    rw [filterCanContain_no_ships hs, if_neg (allCoords_ne_nil hn)]
  have htail : (match tier2Loop b b.previousHits [] with
      | none => none
      | some t2 => if t2 ≠ [] then some t2 else filterCanContain b (allCoords b.n))
      = (none : Option (List Coord)) := by
    rcases tier2Loop_no_ships hs b.previousHits with h2 | h2 <;> rw [h2]
    dsimp only
    rw [if_neg (by simp), h3]
  unfold generate_targets
  by_cases hp : (adjacent_coordinates_in b.previousHits).isEmpty
  · rw [if_pos hp]
    dsimp only
    rw [if_neg (by simp)]
    exact htail
  · rw [if_neg hp]
    rcases tier1Loop_no_ships hs (adjacent_coordinates_in b.previousHits) with h1 | h1 <;>
      rw [h1]
    dsimp only
    rw [if_neg (by simp)]
    exact htail

/-- Claim C10 (amended part): with an empty fleet, `can_contain_ship`
raises (`min` of an empty list) for every coordinate, and on any board of
positive size `generate_targets` consequently raises as well. -/
theorem empty_fleet_targeting_errors :
    ∀ b : Board, b.ships = [] →
      (∀ c, can_contain_ship b c = none) ∧ (1 ≤ b.n → generate_targets b = none) :=
  fun _ hs => ⟨can_contain_ship_no_ships hs, fun hn => generate_targets_no_ships hs hn⟩

/-- Claim C10 (counterexample): on the (degenerate) 0×0 board with an empty
fleet, `generate_targets` raises nothing and returns the empty list — tier 3
iterates over no coordinates, so `can_contain_ship` is never reached. -/
theorem generate_targets_empty_fleet_returns :
    (mkBoard 0).ships = [] ∧ generate_targets (mkBoard 0) = some [] := by decide

/-- Witness for `empty_fleet_targeting_errors` on an empty 2×2 board. -/
theorem empty_fleet_targeting_errors_witness :
    can_contain_ship (mkBoard 2) (0, 0) = none ∧ generate_targets (mkBoard 2) = none :=
  ⟨(empty_fleet_targeting_errors (mkBoard 2) rfl).1 (0, 0),
   (empty_fleet_targeting_errors (mkBoard 2) rfl).2 (by decide)⟩

/-! ### Claim C1: tier-1 behaviour of generate_targets -/

theorem filterCanContain_append (b : Board) (xs ys : List Coord) :
    filterCanContain b (xs ++ ys) =
      (filterCanContain b xs).bind
        (fun a => (filterCanContain b ys).map (fun c => a ++ c)) := by
  induction xs with
  | nil => cases hys : filterCanContain b ys <;> simp [filterCanContain, hys]
  | cons c cs ih =>
    cases hc : can_contain_ship b c with
    | none => simp [filterCanContain, hc]
    | some keep =>
      cases hcs : filterCanContain b cs with
      | none => simp [filterCanContain, hc, hcs, ih]
      | some a =>
        cases hys : filterCanContain b ys with
        | none => simp [filterCanContain, hc, hcs, hys, ih]
        | some cy =>
          have hmid : filterCanContain b (cs ++ ys) = some (a ++ cy) := by
            rw [ih, hcs, hys]
            rfl
          simp only [filterCanContain, hc, hmid, hcs, hys]
          cases keep <;> simp [hmid]

theorem filterCanContain_sound {b : Board} : ∀ {xs r : List Coord},
    filterCanContain b xs = some r → ∀ c ∈ r, can_contain_ship b c = some true := by
  intro xs
  induction xs with
  | nil =>
    intro r h c hc
    cases h
    cases hc
  | cons q qs ih =>
    intro r h c hc
    unfold filterCanContain at h
    cases hq : can_contain_ship b q with
    | none => rw [hq] at h; cases h
    | some keep =>
      rw [hq] at h
      dsimp only at h
      cases hqs : filterCanContain b qs with
      | none => rw [hqs] at h; cases h
      | some r0 =>
        rw [hqs] at h
        dsimp only at h
        cases h
        cases keep with
        | true =>
          rw [if_pos rfl] at hc
          rcases List.mem_cons.mp hc with rfl | hmem
          · exact hq
          · exact ih hqs c hmem
        | false =>
          rw [if_neg (by simp)] at hc
          exact ih hqs c hc

theorem filterCanContain_fixed {b : Board} : ∀ {r : List Coord},
    (∀ c ∈ r, can_contain_ship b c = some true) → filterCanContain b r = some r := by
  intro r
  induction r with
  | nil => intro _; rfl
  | cons q qs ih =>
    intro h
    unfold filterCanContain
    rw [h q (List.mem_cons_self q qs), ih (fun c hc => h c (List.mem_cons_of_mem q hc))]
    simp

theorem tier1Loop_eq (b : Board) : ∀ (prs : List (Coord × Coord)) (acc : List Coord),
    filterCanContain b acc = some acc →
    tier1Loop b prs acc = filterCanContain b (acc ++ prs.flatMap (pairTargets b)) := by
  intro prs
  induction prs with
  | nil => intro acc hacc; simp [tier1Loop, hacc]
  | cons pr rest ih =>
    intro acc hacc
    unfold tier1Loop
    have hassoc : acc ++ (pr :: rest).flatMap (pairTargets b)
        = (acc ++ pairTargets b pr) ++ rest.flatMap (pairTargets b) := by
      rw [List.flatMap_cons, List.append_assoc]
    cases hstep : filterCanContain b (acc ++ pairTargets b pr) with
    | none =>
      rw [hassoc, filterCanContain_append, hstep]
      rfl
    | some acc2 =>
      have hacc2 : filterCanContain b acc2 = some acc2 :=
        filterCanContain_fixed (filterCanContain_sound hstep)
      dsimp only
      rw [ih acc2 hacc2, hassoc,
          filterCanContain_append b (acc ++ pairTargets b pr) (rest.flatMap (pairTargets b)),
          hstep, filterCanContain_append b acc2 (rest.flatMap (pairTargets b)), hacc2]

/-- Claim C1 (amended part): whenever two unresolved hits are adjacent and
the tier-1 pool — the line-direction neighbours of both endpoints of every
adjacent pair, filtered through `can_contain_ship` — is non-empty after
filtering, `generate_targets` returns exactly that pool, without falling
through to tiers 2/3. (When the *filtered* tier-1 pool is empty the code
does fall through; see the counterexample.) -/
theorem generate_targets_tier1_exact :
    ∀ (b : Board) (t1 : List Coord),
      adjacent_coordinates_in b.previousHits ≠ [] →
      filterCanContain b (tier1Pool b) = some t1 →
      t1 ≠ [] →
      generate_targets b = some t1 := by
  intro b t1 hne hfilter ht1
  unfold generate_targets
  rw [if_neg (by simpa [List.isEmpty_iff] using hne)]
  have hloop : tier1Loop b (adjacent_coordinates_in b.previousHits) [] = some t1 := by
    rw [tier1Loop_eq b _ [] rfl]
    simpa [tier1Pool] using hfilter
  rw [hloop]
  dsimp only
  rw [if_pos ht1]

/-- Claim C1 (counterexample): on `exC1c` the two unresolved hits (1,0) and
(1,1) are adjacent, the filtered tier-1 pool is empty, and
`generate_targets` does *not* return that (empty) tier-1 pool: it falls
through to tier 2 and returns four hit-adjacent cells. -/
theorem generate_targets_tier1_fallthrough :
    adjacent_coordinates_in exC1c.previousHits ≠ [] ∧
    filterCanContain exC1c (tier1Pool exC1c) = some [] ∧
    tier1Loop exC1c (adjacent_coordinates_in exC1c.previousHits) [] = some [] ∧
    generate_targets exC1c = some [(2, 0), (0, 0), (2, 1), (0, 1)] := by decide

/-- Witness for `generate_targets_tier1_exact` on the 5×5 board `exC1w`. -/
theorem generate_targets_tier1_exact_witness :
    generate_targets exC1w = some [(2, 3), (2, 0)] :=
  generate_targets_tier1_exact exC1w [(2, 3), (2, 0)] (by decide) (by decide) (by decide)

/-! ### Claim C5: correctness of can_contain_ship -/

theorem smallestShipLen_spec : ∀ ships : List Ship, ships ≠ [] →
    ∃ m, smallestShipLen ships = some m ∧
      (∀ S ∈ ships, m ≤ S.length) ∧ ∃ S ∈ ships, S.length = m := by
  have fold : ∀ (rest : List Ship) (acc : Nat),
      (∀ S ∈ rest, rest.foldl (fun m t => if t.length < m then t.length else m) acc ≤ S.length) ∧
      rest.foldl (fun m t => if t.length < m then t.length else m) acc ≤ acc ∧
      (rest.foldl (fun m t => if t.length < m then t.length else m) acc = acc ∨
        ∃ S ∈ rest, S.length = rest.foldl (fun m t => if t.length < m then t.length else m) acc) := by
    intro rest
    induction rest with
    | nil => intro acc; exact ⟨fun S hS => absurd hS (by simp), le_refl _, Or.inl rfl⟩
    | cons t ts ih =>
      intro acc
      simp only [List.foldl_cons]
      obtain ⟨iha, ihb, ihc⟩ := ih (if t.length < acc then t.length else acc)
      refine ⟨?_, ?_, ?_⟩
      · intro S hS
        rcases List.mem_cons.mp hS with rfl | hmem
        · calc ts.foldl _ _ ≤ _ := ihb
            _ ≤ S.length := by split <;> omega
        · exact iha S hmem
      · calc ts.foldl _ _ ≤ _ := ihb
          _ ≤ acc := by split <;> omega
      · rcases ihc with heq | ⟨S, hS, hSl⟩
        · by_cases hlt : t.length < acc
          · right
            refine ⟨t, List.mem_cons_self t ts, ?_⟩
            rw [heq, if_pos hlt]
          · left
            rw [heq, if_neg hlt]
        · exact Or.inr ⟨S, List.mem_cons_of_mem t hS, hSl.symm ▸ rfl⟩
  intro ships hne
  cases ships with
  | nil => exact absurd rfl hne
  | cons s rest =>
    obtain ⟨ha, hb, hc⟩ := fold rest s.length
    refine ⟨_, rfl, ?_, ?_⟩
    · intro S hS
      rcases List.mem_cons.mp hS with rfl | hmem
      · exact hb
      · exact ha S hmem
    · rcases hc with heq | ⟨S, hS, hSl⟩
      · exact ⟨s, List.mem_cons_self s rest, heq.symm⟩
      · exact ⟨S, List.mem_cons_of_mem s hS, hSl⟩

theorem bGet_natCast {b : Board} {r k : Nat} (hr : r < b.n) (hk : k < b.n) :
    bGet b ((r : Int), (k : Int)) = some (b.grid (r, k)) :=
  bGet_of_npIdx (npIdx_natCast hr) (npIdx_natCast hk)

theorem fwdPositions_natCast {n k : Nat} (hk : k < n) :
    fwdPositions n (k : Int) =
      (List.range (n - 1 - k)).map (fun (i : Nat) => ((k + 1 + i : Nat) : Int)) := by
  unfold fwdPositions
  rw [if_neg (by omega)]
  have hm : ((n : Int) - (k : Int) - 1).toNat = n - 1 - k := by omega
  rw [hm]
  apply List.map_congr_left
  intro i _
  push_cast
  ring

theorem bwdPositions_natCast {n k : Nat} (hk : k < n) :
    bwdPositions n (k : Int) =
      (List.range k).map (fun (i : Nat) => ((k - 1 - i : Nat) : Int)) := by
  unfold bwdPositions
  rw [if_neg (by omega)]
  have hm : ((k : Int)).toNat = k := by omega
  rw [hm]
  apply List.map_congr_left
  intro i hi
  rw [List.mem_range] at hi
  omega

theorem countWhileOk_consecutive (get : Int → Option Nat) (vals : Nat → Nat) :
    ∀ (m base : Nat),
      (∀ i, i < m → get ((base + i : Nat) : Int) = some (vals (base + i))) →
      ∃ d, countWhileOk get ((List.range m).map (fun (i : Nat) => ((base + i : Nat) : Int)))
            = some d ∧
        d ≤ m ∧ (∀ i, i < d → vals (base + i) < 3) ∧
        (d = m ∨ (d < m ∧ ¬ vals (base + d) < 3)) := by
  intro m
  induction m with
  | zero =>
    intro base _
    exact ⟨0, rfl, le_refl 0, fun i hi => absurd hi (by omega), Or.inl rfl⟩
  | succ m ih =>
    intro base hget
    rw [List.range_succ_eq_map, List.map_cons, List.map_map]
    have hhead := hget 0 (by omega)
    unfold countWhileOk
    simp only [Nat.add_zero] at hhead ⊢
    rw [hhead]
    dsimp only
    by_cases hv : vals base < 3
    · rw [if_pos hv]
      have hmap : (List.range m).map ((fun (i : Nat) => ((base + i : Nat) : Int)) ∘ Nat.succ)
          = (List.range m).map (fun (i : Nat) => ((base + 1 + i : Nat) : Int)) := by
        apply List.map_congr_left
        intro i _
        simp only [Function.comp]
        congr 1
        omega
      rw [hmap]
      obtain ⟨d, hd, hd1, hd2, hd3⟩ := ih (base + 1) (fun i hi => by
        have := hget (1 + i) (by omega)
        rw [show base + (1 + i) = base + 1 + i from by omega] at this
        exact this)
      refine ⟨d + 1, by rw [hd]; rfl, by omega, ?_, ?_⟩
      · intro i hi
        cases i with
        | zero => exact hv
        | succ i0 =>
          have := hd2 i0 (by omega)
          rw [show base + 1 + i0 = base + (i0 + 1) from by omega] at this
          exact this
      · rcases hd3 with rfl | ⟨hlt, hnv⟩
        · left; omega
        · right
          refine ⟨by omega, ?_⟩
          rw [show base + (d + 1) = base + 1 + d from by omega]
          exact hnv
    · rw [if_neg hv]
      exact ⟨0, rfl, by omega, fun i hi => absurd hi (by omega),
        Or.inr ⟨by omega, by rw [show base + 0 = base from rfl]; exact hv⟩⟩

theorem countWhileOk_descending (get : Int → Option Nat) (vals : Nat → Nat) :
    ∀ k : Nat,
      (∀ j, j < k → get ((j : Nat) : Int) = some (vals j)) →
      ∃ d, countWhileOk get ((List.range k).map (fun (i : Nat) => ((k - 1 - i : Nat) : Int)))
            = some d ∧
        d ≤ k ∧ (∀ i, i < d → vals (k - 1 - i) < 3) ∧
        (d = k ∨ (d < k ∧ ¬ vals (k - 1 - d) < 3)) := by
  intro k
  induction k with
  | zero =>
    intro _
    exact ⟨0, rfl, le_refl 0, fun i hi => absurd hi (by omega), Or.inl rfl⟩
  | succ k ih =>
    intro hget
    rw [List.range_succ_eq_map, List.map_cons, List.map_map]
    have hhead := hget k (by omega)
    unfold countWhileOk
    rw [show k + 1 - 1 - 0 = k from by omega, hhead]
    dsimp only
    by_cases hv : vals k < 3
    · rw [if_pos hv]
      have hmap : (List.range k).map ((fun (i : Nat) => ((k + 1 - 1 - i : Nat) : Int)) ∘ Nat.succ)
          = (List.range k).map (fun (i : Nat) => ((k - 1 - i : Nat) : Int)) := by
        apply List.map_congr_left
        intro i _
        simp only [Function.comp]
        congr 1
        omega
      rw [hmap]
      obtain ⟨d, hd, hd1, hd2, hd3⟩ := ih (fun j hj => hget j (by omega))
      refine ⟨d + 1, by rw [hd]; rfl, by omega, ?_, ?_⟩
      · intro i hi
        cases i with
        | zero => rw [show k + 1 - 1 - 0 = k from by omega]; exact hv
        | succ i0 =>
          have := hd2 i0 (by omega)
          rw [show k + 1 - 1 - (i0 + 1) = k - 1 - i0 from by omega]
          exact this
      · rcases hd3 with rfl | ⟨hlt, hnv⟩
        · left; omega
        · right
          refine ⟨by omega, ?_⟩
          rw [show k + 1 - 1 - (d + 1) = k - 1 - d from by omega]
          exact hnv
    · rw [if_neg hv]
      refine ⟨0, rfl, by omega, fun i hi => absurd hi (by omega), Or.inr ⟨by omega, ?_⟩⟩
      rw [show k + 1 - 1 - 0 = k from by omega]
      exact hv

theorem code_run_eq_spec {vals : Nat → Nat} {n k f d : Nat}
    (hk : k < n) (hv3 : ∀ j, j < n → vals j ≤ 3) (hcv : vals k < 3)
    (hf1 : k + f < n) (hf2 : ∀ i, 1 ≤ i → i ≤ f → vals (k + i) < 3)
    (hf3 : k + f + 1 = n ∨ (k + f + 1 < n ∧ ¬ vals (k + f + 1) < 3))
    (hd1 : d ≤ k) (hd2 : ∀ i, i < d → vals (k - 1 - i) < 3)
    (hd3 : d = k ∨ (d < k ∧ ¬ vals (k - 1 - d) < 3)) :
    1 + f + d = nonMissRunSpec vals n k := by
  apply le_antisymm
  · have hmem : ((k - d, k + f) : Nat × Nat) ∈ (Finset.range n) ×ˢ (Finset.range n) := by
      rw [Finset.mem_product, Finset.mem_range, Finset.mem_range]
      omega
    have hle := Finset.le_sup (f := fun lh : Nat × Nat =>
      if lh.1 ≤ k ∧ k ≤ lh.2 ∧ ∀ j ∈ Finset.Icc lh.1 lh.2, vals j ≠ 3
      then lh.2 + 1 - lh.1 else 0) hmem
    have hcond : (k - d ≤ k ∧ k ≤ k + f ∧
        ∀ j ∈ Finset.Icc (k - d) (k + f), vals j ≠ 3) := by
      refine ⟨by omega, by omega, ?_⟩
      intro j hj
      rw [Finset.mem_Icc] at hj
      rcases Nat.lt_trichotomy j k with hjk | rfl | hjk
      · have hi : k - 1 - (k - 1 - j) = j := by omega
        have := hd2 (k - 1 - j) (by omega)
        rw [hi] at this
        omega
      · omega
      · have := hf2 (j - k) (by omega) (by omega)
        rw [show k + (j - k) = j from by omega] at this
        omega
    dsimp only at hle
    rw [if_pos hcond] at hle
    unfold nonMissRunSpec
    omega
  · unfold nonMissRunSpec
    apply Finset.sup_le
    intro lh hlh
    rw [Finset.mem_product, Finset.mem_range, Finset.mem_range] at hlh
    by_cases hcond : lh.1 ≤ k ∧ k ≤ lh.2 ∧ ∀ j ∈ Finset.Icc lh.1 lh.2, vals j ≠ 3
    · rw [if_pos hcond]
      obtain ⟨h1, h2, h3⟩ := hcond
      have hub : lh.2 ≤ k + f := by
        by_contra hgt
        push_neg at hgt
        rcases hf3 with heq | ⟨hlt, hnv⟩
        · omega
        · have hne3 := h3 (k + f + 1) (Finset.mem_Icc.mpr ⟨by omega, by omega⟩)
          have hle3 := hv3 (k + f + 1) (by omega)
          omega
      have hlb : k - d ≤ lh.1 := by
        by_contra hgt
        push_neg at hgt
        rcases hd3 with rfl | ⟨hlt, hnv⟩
        · omega
        · have hne3 := h3 (k - 1 - d) (Finset.mem_Icc.mpr ⟨by omega, by omega⟩)
          have hle3 := hv3 (k - 1 - d) (by omega)
          omega
      omega
    · rw [if_neg hcond]
      omega

/-- Claim C5: for a board with a non-empty fleet (cells holding only the
four legal values) and an in-bounds coordinate, `can_contain_ship` returns
true iff the cell is Sea or UnhitShip and the longest run of non-Miss cells
through the coordinate — measured independently along the horizontal and the
vertical axis — is at least the length of the shortest remaining ship. -/
theorem can_contain_ship_correct :
    ∀ (b : Board) (r k : Nat), r < b.n → k < b.n → b.ships ≠ [] →
      (∀ i, i < b.n → ∀ j, j < b.n → b.grid (i, j) ≤ 3) →
      ∃ m, smallestShipLen b.ships = some m ∧
        (∀ S ∈ b.ships, m ≤ S.length) ∧ (∃ S ∈ b.ships, S.length = m) ∧
        can_contain_ship b ((r : Int), (k : Int)) =
          some (decide ((b.grid (r, k) = 0 ∨ b.grid (r, k) = 1) ∧
            m ≤ max (nonMissRunSpec (fun j => b.grid (r, j)) b.n k)
                    (nonMissRunSpec (fun i => b.grid (i, k)) b.n r))) := by
  intro b r k hr hk hships hv3
  obtain ⟨m, hm, hmle, hmex⟩ := smallestShipLen_spec b.ships hships
  refine ⟨m, hm, hmle, hmex, ?_⟩
  obtain ⟨fx, hfxeq, hfxle, hfxall, hfxbd⟩ :=
    countWhileOk_consecutive (fun j => bGet b ((r : Int), j))
      (fun j => b.grid (r, j)) (b.n - 1 - k) (k + 1)
      (fun i hi => bGet_natCast hr (by omega))
  obtain ⟨bx, hbxeq, hbxle, hbxall, hbxbd⟩ :=
    countWhileOk_descending (fun j => bGet b ((r : Int), j))
      (fun j => b.grid (r, j)) k
      (fun j hj => bGet_natCast hr (by omega))
  obtain ⟨fy, hfyeq, hfyle, hfyall, hfybd⟩ :=
    countWhileOk_consecutive (fun i => bGet b (i, (k : Int)))
      (fun i => b.grid (i, k)) (b.n - 1 - r) (r + 1)
      (fun i hi => bGet_natCast (show r + 1 + i < b.n by omega) hk)
  obtain ⟨by2, hbyeq, hbyle, hbyall, hbybd⟩ :=
    countWhileOk_descending (fun i => bGet b (i, (k : Int)))
      (fun i => b.grid (i, k)) r
      (fun j hj => bGet_natCast (show j < b.n by omega) hk)
  unfold can_contain_ship
  dsimp only
  rw [fwdPositions_natCast hk, bwdPositions_natCast hk,
      fwdPositions_natCast hr, bwdPositions_natCast hr,
      hfxeq, hbxeq, hfyeq, hbyeq]
  dsimp only
  rw [hm]
  dsimp only
  rw [bGet_natCast hr hk]
  dsimp only
  congr 1
  rw [Bool.eq_iff_iff]
  simp only [Bool.and_eq_true, decide_eq_true_eq]
  have hvle : b.grid (r, k) ≤ 3 := hv3 r hr k hk
  by_cases hv : b.grid (r, k) < 3
  · have hf2x : ∀ i, 1 ≤ i → i ≤ fx → b.grid (r, k + i) < 3 := by
      intro i h1 h2
      have := hfxall (i - 1) (by omega)
      rw [show k + 1 + (i - 1) = k + i from by omega] at this
      exact this
    have hf3x : k + fx + 1 = b.n ∨ (k + fx + 1 < b.n ∧ ¬ b.grid (r, k + fx + 1) < 3) := by
      rcases hfxbd with heq | ⟨hlt, hnv⟩
      · left; omega
      · right
        refine ⟨by omega, ?_⟩
        rw [show k + fx + 1 = k + 1 + fx from by omega]
        exact hnv
    have hf2y : ∀ i, 1 ≤ i → i ≤ fy → b.grid (r + i, k) < 3 := by
      intro i h1 h2
      have := hfyall (i - 1) (by omega)
      rw [show r + 1 + (i - 1) = r + i from by omega] at this
      exact this
    have hf3y : r + fy + 1 = b.n ∨ (r + fy + 1 < b.n ∧ ¬ b.grid (r + fy + 1, k) < 3) := by
      rcases hfybd with heq | ⟨hlt, hnv⟩
      · left; omega
      · right
        refine ⟨by omega, ?_⟩
        rw [show r + fy + 1 = r + 1 + fy from by omega]
        exact hnv
    have hxeq : 1 + fx + bx = nonMissRunSpec (fun j => b.grid (r, j)) b.n k :=
      code_run_eq_spec hk (fun j hj => hv3 r hr j hj) hv (by omega) hf2x hf3x
        hbxle hbxall hbxbd
    have hyeq : 1 + fy + by2 = nonMissRunSpec (fun i => b.grid (i, k)) b.n r :=
      code_run_eq_spec hr (fun j hj => hv3 j hj k hk) hv (by omega) hf2y hf3y
        hbyle hbyall hbybd
    rw [← hxeq, ← hyeq]
    constructor
    · rintro ⟨hA, hB⟩
      exact ⟨by omega, hB⟩
    · rintro ⟨hA, hB⟩
      refine ⟨by omega, hB⟩
  · constructor
    · rintro ⟨hA, -⟩
      omega
    · rintro ⟨hA, -⟩
      rcases hA with hA | hA <;> omega

/-- Witness for `can_contain_ship_correct` on the concrete board `exC1w`
at coordinate (2,3). -/
theorem can_contain_ship_correct_witness :
    ∃ m, smallestShipLen exC1w.ships = some m ∧
      (∀ S ∈ exC1w.ships, m ≤ S.length) ∧ (∃ S ∈ exC1w.ships, S.length = m) ∧
      can_contain_ship exC1w ((2 : Int), (3 : Int)) =
        some (decide ((exC1w.grid (2, 3) = 0 ∨ exC1w.grid (2, 3) = 1) ∧
          m ≤ max (nonMissRunSpec (fun j => exC1w.grid (2, j)) exC1w.n 3)
                  (nonMissRunSpec (fun i => exC1w.grid (i, 3)) exC1w.n 2))) :=
  can_contain_ship_correct exC1w 2 3 (by decide) (by decide) (by decide)
    (by decide)

/-! ### Claims C4 and C7: reachable-state invariants -/

theorem inBn_npIdx_fst {n : Nat} {c : Coord} (h : inBn n c) :
    npIdx n c.1 = some c.1.toNat := by
  unfold npIdx
  rw [if_pos ⟨h.1, h.2.1⟩]

theorem inBn_npIdx_snd {n : Nat} {c : Coord} (h : inBn n c) :
    npIdx n c.2 = some c.2.toNat := by
  unfold npIdx
  rw [if_pos ⟨h.2.2.1, h.2.2.2⟩]

theorem inBn_eq_of_npIdx {n : Nat} {p q : Coord} (hp : inBn n p) (hq : inBn n q)
    (h1 : npIdx n q.1 = npIdx n p.1) (h2 : npIdx n q.2 = npIdx n p.2) : q = p := by
  rw [inBn_npIdx_fst hp, inBn_npIdx_fst hq] at h1
  rw [inBn_npIdx_snd hp, inBn_npIdx_snd hq] at h2
  have e1 : q.1.toNat = p.1.toNat := Option.some_inj.mp h1
  have e2 : q.2.toNat = p.2.toNat := Option.some_inj.mp h2
  obtain ⟨hp1, hp2, hp3, hp4⟩ := hp
  obtain ⟨hq1, hq2, hq3, hq4⟩ := hq
  have : q.1 = p.1 := by omega
  have : q.2 = p.2 := by omega
  exact Prod.ext (by omega) (by omega)

theorem bGet_bSet_same {b : Board} {c : Coord} {w : Nat} {b2 : Board}
    (hset : bSet b c w = some b2) : bGet b2 c = some w := by
  obtain ⟨r, k, h1, h2, rfl⟩ := bSet_inv hset
  rw [bGet_of_npIdx (b := { b with grid := fun q => if q = (r, k) then w else b.grid q }) h1 h2]
  simp

theorem bGet_ships_hits {bb : Board} {X : List Ship} {Y : List Coord} (p : Coord) :
    bGet { bb with ships := X, previousHits := Y } p = bGet bb p := rfl

theorem markCells_spec : ∀ (cells : List Coord) (b : Board),
    (∀ p ∈ cells, inBn b.n p) →
    ∃ b2, markCells b cells = some b2 ∧ b2.n = b.n ∧ b2.ships = b.ships ∧
      b2.previousHits = b.previousHits ∧
      ∀ q : Coord, inBn b.n q →
        bGet b2 q = if q ∈ cells then some 1 else bGet b q := by
  intro cells
  induction cells with
  | nil =>
    intro b _
    exact ⟨b, rfl, rfl, rfl, rfl, fun q _ => by simp⟩
  | cons p ps ih =>
    intro b hin
    have hp := hin p (List.mem_cons_self p ps)
    have hset := bSet_of_npIdx (b := b) (c := p) (w := 1)
      (inBn_npIdx_fst hp) (inBn_npIdx_snd hp)
    set b1 : Board := { b with grid := fun q =>
      if q = (p.1.toNat, p.2.toNat) then 1 else b.grid q } with hb1
    obtain ⟨b2, hmark, hn, hships, hhits, hget⟩ := ih b1
      (fun q hq => hin q (List.mem_cons_of_mem p hq))
    refine ⟨b2, ?_, hn, hships, hhits, ?_⟩
    · unfold markCells
      rw [hset]
      exact hmark
    · intro q hq
      rw [hget q hq]
      by_cases hqps : q ∈ ps
      · rw [if_pos hqps, if_pos (List.mem_cons_of_mem p hqps)]
      · rw [if_neg hqps]
        by_cases hqp : q = p
        · subst hqp
          rw [if_pos (List.mem_cons_self q ps), bGet_bSet_same hset]
        · rw [if_neg (fun hmem => by
            rcases List.mem_cons.mp hmem with h | h
            · exact hqp h
            · exact hqps h)]
          rcases bGet_bSet_cases hset q with heq | ⟨e1, e2, _⟩
          · exact heq
          · exact absurd (inBn_eq_of_npIdx hp hq e1 e2) hqp

theorem place_ship_spec {b : Board} {s : Ship}
    (hcells : ∀ p ∈ s.cells, inBn b.n p) :
    ∃ b2, place_ship b s = some b2 ∧ b2.n = b.n ∧ b2.ships = b.ships ++ [s] ∧
      b2.previousHits = b.previousHits ∧
      ∀ q : Coord, inBn b.n q →
        bGet b2 q = if q ∈ s.cells then some 1 else bGet b q := by
  obtain ⟨b2, hmark, hn, hships, hhits, hget⟩ :=
    markCells_spec s.cells { b with ships := b.ships ++ [s] } hcells
  exact ⟨b2, hmark, hn, hships, hhits, hget⟩

theorem valid_placement_cells {b : Board} {l : Nat} {st : Coord} {d : Dir} {s : Ship}
    (hmk : mkShip l st d = some s) (hst : inBn b.n st)
    (hv : is_valid_placement b s = some true) :
    (∀ p ∈ s.cells, inBn b.n p) ∧ ∀ p ∈ s.cells, bGet b p ≠ some 1 := by
  unfold is_valid_placement at hv
  split at hv
  · rename_i hend
    refine ⟨mkShip_cells_inBn hmk hst hend, ?_⟩
    intro p hp
    obtain ⟨v, hvp, hne⟩ := checkPoints_true hv p hp
    rw [hvp]
    intro hcon
    exact hne (Option.some_inj.mp hcon)
  · cases hv

theorem placed_pinv : ∀ b : Board, Placed b → PInv b := by
  intro b h
  induction h with
  | init n =>
    refine ⟨fun S hS => absurd hS (by simp [mkBoard]), by exact List.Pairwise.nil,
      fun S hS => absurd hS (by simp [mkBoard]), rfl, ?_⟩
    intro p hp
    rw [bGet_inBn hp]
    constructor
    · intro hcon
      cases Option.some_inj.mp hcon
    · rintro ⟨S, hS, -⟩
      exact absurd hS (by simp [mkBoard])
  | place hplaced hmk hst hvalid hres ih =>
    rename_i b0 b2 l st d s
    obtain ⟨hin, hfree⟩ := valid_placement_cells hmk hst hvalid
    obtain ⟨b2x, hps, hn, hships, hhits, hget⟩ := place_ship_spec hin
    rw [hres] at hps
    cases hps
    obtain ⟨hl2, hl5, hlen, hcond, -, -⟩ := mkShip_some hmk
    have hwfS : ShipWf b0.n s :=
      ⟨by rw [mkShip_cells_length hmk, hlen], by omega, mkShip_cells_nodup hmk, hin⟩
    refine ⟨?_, ?_, ?_, by rw [hhits, ih.hits], ?_⟩
    · intro S hS
      rw [hships] at hS
      rw [hn]
      rcases List.mem_append.mp hS with hold | hnew
      · exact ih.wf S hold
      · rw [List.mem_singleton.mp hnew]
        exact hwfS
    · rw [hships]
      rw [List.pairwise_append]
      refine ⟨ih.disj, by simp, ?_⟩
      intro T hT s2 hs2 p hpT
      rw [List.mem_singleton.mp hs2]
      intro hps
      have hpin : inBn b0.n p := (ih.wf T hT).2.2.2 p hpT
      have : bGet b0 p = some 1 := (ih.grid1 p hpin).mpr ⟨T, hT, hpT⟩
      exact hfree p hps this
    · intro S hS
      rw [hships] at hS
      rcases List.mem_append.mp hS with hold | hnew
      · exact ih.full S hold
      · rw [List.mem_singleton.mp hnew, hcond, hlen]
    · intro p hp
      rw [hn] at hp
      rw [hget p hp, hships]
      by_cases hpc : p ∈ s.cells
      · rw [if_pos hpc]
        constructor
        · intro _
          exact ⟨s, by simp, hpc⟩
        · intro _
          rfl
      · rw [if_neg hpc, ih.grid1 p hp]
        constructor
        · rintro ⟨S, hS, hpS⟩
          exact ⟨S, List.mem_append.mpr (Or.inl hS), hpS⟩
        · rintro ⟨S, hS, hpS⟩
          rcases List.mem_append.mp hS with hold | hnew
          · exact ⟨S, hold, hpS⟩
          · rw [List.mem_singleton.mp hnew] at hpS
            exact absurd hpS hpc

theorem hitCount_nil (S : Ship) : hitCount S [] = 0 := by
  unfold hitCount
  simp

theorem pinv_inv {b : Board} (h : PInv b) : BInv b := by
  refine ⟨h.wf, h.disj, ?_, ?_, by rw [h.hits]; exact List.nodup_nil, ?_⟩
  · intro S hS
    rw [h.full S hS]
    have := (h.wf S hS).2.1
    omega
  · intro S hS
    rw [h.full S hS, h.hits, hitCount_nil]
    omega
  · intro p hp
    rw [h.hits] at hp
    cases hp

theorem damage_cells (S : Ship) : (damage S).cells = S.cells := rfl

theorem damage_variety (S : Ship) : (damage S).variety = S.variety := rfl

theorem sunk_damage (S : Ship) : sunk (damage S) = decide (S.condition = 1) := by
  unfold sunk damage
  rw [Bool.eq_iff_iff]
  simp [sub_eq_zero]

theorem hitLoop_no_match {amb : Coord} : ∀ {l : List Ship} {hits : List Coord},
    (∀ S ∈ l, amb ∉ S.cells) → hitLoop amb l hits = some (l, hits, []) := by
  intro l
  induction l with
  | nil => intro hits _; rfl
  | cons s rest ih =>
    intro hits h
    unfold hitLoop
    rw [if_neg (h s (List.mem_cons_self s rest))]
    rw [ih (fun S hS => h S (List.mem_cons_of_mem s hS))]

theorem hitLoop_match {amb : Coord} {S : Ship} (hmem : amb ∈ S.cells) :
    ∀ (l1 l2 : List Ship) (hits : List Coord),
      (∀ T ∈ l1, amb ∉ T.cells) → (∀ T ∈ l2, amb ∉ T.cells) →
      hitLoop amb (l1 ++ S :: l2) hits =
        if S.condition = 1 then
          match removeAll S.cells hits with
          | none => none
          | some hits2 => some (l1 ++ l2, hits2, [S.variety])
        else some (l1 ++ damage S :: l2, hits, []) := by
  intro l1
  induction l1 with
  | nil =>
    intro l2 hits h1 h2
    simp only [List.nil_append]
    unfold hitLoop
    rw [if_pos hmem, sunk_damage, damage_cells, damage_variety]
    by_cases hc : S.condition = 1
    · rw [if_pos (by simp [hc]), if_pos hc]
      cases hrm : removeAll S.cells hits with
      | none => rfl
      | some hits2 =>
        dsimp only
        cases l2 with
        | nil => rfl
        | cons t rest2 =>
          dsimp only
          rw [hitLoop_no_match (fun T hT => h2 T (List.mem_cons_of_mem t hT))]
    · rw [if_neg (by simp [hc]), if_neg hc]
      rw [hitLoop_no_match h2]
  | cons a l1 ih =>
    intro l2 hits h1 h2
    simp only [List.cons_append]
    unfold hitLoop
    rw [if_neg (h1 a (List.mem_cons_self a l1))]
    rw [ih l2 hits (fun T hT => h1 T (List.mem_cons_of_mem a hT)) h2]
    by_cases hc : S.condition = 1
    · rw [if_pos hc, if_pos hc]
      cases hrm : removeAll S.cells hits with
      | none => rfl
      | some hits2 => rfl
    · rw [if_neg hc, if_neg hc]

theorem removeAll_spec : ∀ (ps hits : List Coord), hits.Nodup → ps.Nodup →
    (∀ p ∈ ps, p ∈ hits) →
    removeAll ps hits = some (hits.filter (fun q => decide (q ∉ ps))) := by
  intro ps
  induction ps with
  | nil =>
    intro hits _ _ _
    unfold removeAll
    congr 1
    simp
  | cons p ps ih =>
    intro hits hnd hpnd hsub
    unfold removeAll
    rw [if_pos (hsub p (List.mem_cons_self p ps))]
    obtain ⟨hpn, hpsn⟩ := List.nodup_cons.mp hpnd
    have herase : hits.erase p = hits.filter (fun q => decide (q ≠ p)) := by
      rw [List.Nodup.erase_eq_filter hnd]
      apply List.filter_congr
      intro a _
      rw [Bool.eq_iff_iff]
      simp [bne_iff_ne]
    rw [herase]
    rw [ih _ (List.Nodup.filter _ hnd) hpsn ?sub]
    case sub =>
      intro q hq
      rw [List.mem_filter]
      exact ⟨hsub q (List.mem_cons_of_mem p hq),
        by simp; exact fun hqp => hpn (hqp ▸ hq)⟩
    congr 1
    rw [List.filter_filter]
    apply List.filter_congr
    intro a _
    rw [Bool.eq_iff_iff]
    simp [List.mem_cons]
    tauto

theorem count_congr {cells hits1 hits2 : List Coord}
    (h : ∀ p ∈ cells, (p ∈ hits1 ↔ p ∈ hits2)) :
    (cells.filter (fun p => decide (p ∈ hits1))).length
      = (cells.filter (fun p => decide (p ∈ hits2))).length := by
  have heq : cells.filter (fun p => decide (p ∈ hits1))
      = cells.filter (fun p => decide (p ∈ hits2)) := by
    apply List.filter_congr
    intro a ha
    rw [Bool.eq_iff_iff]
    simp [h a ha]
  rw [heq]

theorem count_mem_append {cells hits : List Coord} {c : Coord}
    (hnodup : cells.Nodup) (hcS : c ∈ cells) (hch : c ∉ hits) :
    (cells.filter (fun p => decide (p ∈ hits ++ [c]))).length
      = (cells.filter (fun p => decide (p ∈ hits))).length + 1 := by
  induction cells with
  | nil => cases hcS
  | cons q qs ih =>
    rw [List.filter_cons, List.filter_cons]
    obtain ⟨hqn, hqsn⟩ := List.nodup_cons.mp hnodup
    by_cases hq : q = c
    · subst hq
      rw [if_pos (by simp), if_neg (by simp [hch])]
      have hqs : q ∉ qs := hqn
      have heq : qs.filter (fun p => decide (p ∈ hits ++ [q]))
          = qs.filter (fun p => decide (p ∈ hits)) := by
        apply List.filter_congr
        intro a ha
        have hane : a ≠ q := fun hac => hqs (hac ▸ ha)
        rw [Bool.eq_iff_iff]
        simp [List.mem_append, hane]
      rw [heq]
      simp
    · have hcqs : c ∈ qs := by
        rcases List.mem_cons.mp hcS with h | h
        · exact absurd h.symm hq
        · exact h
      have ihh := ih hqsn hcqs
      by_cases hqh : q ∈ hits
      · rw [if_pos (by simp [hqh]), if_pos (by simp [hqh])]
        simp only [List.length_cons]
        omega
      · rw [if_neg (by simp [hqh, hq]), if_neg (by simp [hqh])]
        exact ihh

theorem filter_length_all {α : Type} (p : α → Bool) : ∀ l : List α,
    (l.filter p).length = l.length → ∀ a ∈ l, p a = true := by
  intro l
  induction l with
  | nil => intro _ a ha; cases ha
  | cons x xs ih =>
    intro h a ha
    rw [List.filter_cons] at h
    by_cases hx : p x = true
    · rw [if_pos hx] at h
      simp only [List.length_cons] at h
      rcases List.mem_cons.mp ha with rfl | hmem
      · exact hx
      · exact ih (by omega) a hmem
    · rw [if_neg hx] at h
      have hle := List.length_filter_le p xs
      simp only [List.length_cons] at h
      omega

theorem bGet_update_hits {bb : Board} {Y : List Coord} (p : Coord) :
    bGet { bb with previousHits := Y } p = bGet bb p := rfl

theorem hitCount_append_not {S : Ship} {hits : List Coord} {c : Coord}
    (hc : c ∉ S.cells) : hitCount S (hits ++ [c]) = hitCount S hits := by
  unfold hitCount
  apply count_congr
  intro p hp
  have hne : p ≠ c := fun e => hc (e ▸ hp)
  simp [List.mem_append, hne]

theorem hitCount_append_mem {S : Ship} {hits : List Coord} {c : Coord}
    (hnd : S.cells.Nodup) (hcS : c ∈ S.cells) (hch : c ∉ hits) :
    hitCount S (hits ++ [c]) = hitCount S hits + 1 :=
  count_mem_append hnd hcS hch

theorem hitCount_le (S : Ship) (hits : List Coord) : hitCount S hits ≤ S.cells.length :=
  List.length_filter_le _ _

theorem apply_shot_hit_char {b b2 : Board} {c : Coord} {rep : ShotReport}
    (hdisj : b.ships.Pairwise (fun S T => ∀ p ∈ S.cells, p ∉ T.cells))
    (hv : bGet b c = some 1)
    (h : apply_shot b c = some (b2, rep)) :
    ∃ bb, bSet b c 2 = some bb ∧ bb.n = b.n ∧ bb.ships = b.ships ∧
      bb.previousHits = b.previousHits ∧
      (((∀ S ∈ b.ships, c ∉ S.cells) ∧
          b2 = { bb with previousHits := b.previousHits ++ [c] } ∧
          rep = ShotReport.hit [])
       ∨ (∃ l1 S l2, b.ships = l1 ++ S :: l2 ∧ c ∈ S.cells ∧
            (∀ T ∈ l1, c ∉ T.cells) ∧ (∀ T ∈ l2, c ∉ T.cells) ∧
            ((S.condition ≠ 1 ∧
               b2 = { bb with ships := l1 ++ damage S :: l2, previousHits := b.previousHits ++ [c] } ∧
               rep = ShotReport.hit [])
             ∨ (S.condition = 1 ∧
                 ∃ hits2, removeAll S.cells (b.previousHits ++ [c]) = some hits2 ∧
                   b2 = { bb with ships := l1 ++ l2, previousHits := hits2 } ∧
                   rep = ShotReport.hit [S.variety])))) := by
  obtain ⟨r, k, h1, h2, hg⟩ := bGet_some_npIdx hv
  have hset := bSet_of_npIdx (b := b) (c := c) (w := 2) h1 h2
  refine ⟨_, hset, rfl, rfl, rfl, ?_⟩
  unfold apply_shot applyShotAmbient at h
  rw [hv] at h
  dsimp only at h
  rw [if_pos rfl, hset] at h
  dsimp only at h
  by_cases hex : ∃ S ∈ b.ships, c ∈ S.cells
  · obtain ⟨S, hS, hmem⟩ := hex
    obtain ⟨l1, l2, hsplit⟩ := List.append_of_mem hS
    rw [hsplit] at hdisj
    obtain ⟨pd1, pd2, pd12⟩ := List.pairwise_append.mp hdisj
    have h_l2 : ∀ T ∈ l2, c ∉ T.cells :=
      fun T hT => (List.pairwise_cons.mp pd2).1 T hT c hmem
    have h_l1 : ∀ T ∈ l1, c ∉ T.cells := by
      intro T hT hcT
      exact pd12 T hT S (List.mem_cons_self S l2) c hcT hmem
    right
    refine ⟨l1, S, l2, hsplit, hmem, h_l1, h_l2, ?_⟩
    rw [hsplit] at h
    rw [hitLoop_match hmem l1 l2 (b.previousHits ++ [c]) h_l1 h_l2] at h
    by_cases hc1 : S.condition = 1
    · rw [if_pos hc1] at h
      cases hrm : removeAll S.cells (b.previousHits ++ [c]) with
      | none => rw [hrm] at h; cases h
      | some hits2 =>
        rw [hrm] at h
        dsimp only at h
        have hpair := Option.some_inj.mp h
        exact Or.inr ⟨hc1, hits2, rfl, (congrArg Prod.fst hpair).symm,
          (congrArg Prod.snd hpair).symm⟩
    · rw [if_neg hc1] at h
      dsimp only at h
      have hpair := Option.some_inj.mp h
      exact Or.inl ⟨hc1, (congrArg Prod.fst hpair).symm,
        (congrArg Prod.snd hpair).symm⟩
  · push_neg at hex
    left
    rw [hitLoop_no_match hex] at h
    dsimp only at h
    have hpair := Option.some_inj.mp h
    exact ⟨hex, (congrArg Prod.fst hpair).symm, (congrArg Prod.snd hpair).symm⟩

theorem bGet_eq_of_npIdx_eq {b : Board} {p q : Coord}
    (e1 : npIdx b.n p.1 = npIdx b.n q.1) (e2 : npIdx b.n p.2 = npIdx b.n q.2) :
    bGet b p = bGet b q := by
  unfold bGet
  rw [e1, e2]

theorem shipWf_damage {n : Nat} {S : Ship} : ShipWf n (damage S) ↔ ShipWf n S := Iff.rfl

theorem binv_step {b b2 : Board} {c : Coord} {rep : ShotReport}
    (hInv : BInv b) (h : apply_shot b c = some (b2, rep)) : BInv b2 := by
  have hvex : ∃ v, bGet b c = some v := by
    unfold apply_shot applyShotAmbient at h
    cases hb : bGet b c with
    | none => rw [hb] at h; cases h
    | some v => exact ⟨v, rfl⟩
  obtain ⟨v, hv⟩ := hvex
  by_cases hv1 : v = 1
  case pos =>
    subst hv1
    obtain ⟨bb, hset, hbn, hbs, hbh, hcases⟩ := apply_shot_hit_char hInv.disj hv h
    have hc_not_hit : c ∉ b.previousHits := by
      intro hch
      have h2 := hInv.hits_two c hch
      rw [hv] at h2
      cases Option.some_inj.mp h2
    have hits1_nodup : (b.previousHits ++ [c]).Nodup := by
      rw [List.nodup_append]
      exact ⟨hInv.hits_nodup, List.nodup_singleton c,
        fun a ha hamem => hc_not_hit ((List.mem_singleton.mp hamem) ▸ ha)⟩
    have hits_two_bb : ∀ p ∈ b.previousHits ++ [c], bGet bb p = some 2 := by
      intro p hp
      rcases List.mem_append.mp hp with hpo | hpc
      · have h2 := hInv.hits_two p hpo
        rcases bGet_bSet_cases hset p with heq | ⟨-, -, hval⟩
        · rw [heq]; exact h2
        · exact hval
      · rw [List.mem_singleton.mp hpc]
        exact bGet_bSet_same hset
    rcases hcases with ⟨hnone, rfl, -⟩ | ⟨l1, S, l2, hsplit, hmem, h_l1, h_l2, hsub⟩
    · refine ⟨?_, ?_, ?_, ?_, ?_, ?_⟩
      · intro T hT
        dsimp only at hT ⊢
        rw [hbs] at hT
        rw [hbn]
        exact hInv.wf T hT
      · dsimp only
        rw [hbs]
        exact hInv.disj
      · intro T hT
        dsimp only at hT
        rw [hbs] at hT
        exact hInv.pos T hT
      · intro T hT
        dsimp only at hT ⊢
        rw [hbs] at hT
        rw [hitCount_append_not (hnone T hT)]
        exact hInv.cond_eq T hT
      · dsimp only
        exact hits1_nodup
      · intro p hp
        dsimp only at hp
        rw [bGet_update_hits p]
        exact hits_two_bb p hp
    · have hSmem : S ∈ b.ships := by
        rw [hsplit]
        exact List.mem_append.mpr (Or.inr (List.mem_cons_self S l2))
      have hwfS := hInv.wf S hSmem
      have hce := hInv.cond_eq S hSmem
      have hd := hInv.disj
      rw [hsplit] at hd
      obtain ⟨pd1, pd2, pd12⟩ := List.pairwise_append.mp hd
      have pdc := List.pairwise_cons.mp pd2
      have hl1_S : ∀ T ∈ l1, ∀ p ∈ T.cells, p ∉ S.cells :=
        fun T hT => pd12 T hT S (List.mem_cons_self S l2)
      have hmemT : ∀ T, T ∈ l1 ∨ T ∈ l2 → T ∈ b.ships := by
        intro T hT
        rw [hsplit]
        rcases hT with hT | hT
        · exact List.mem_append.mpr (Or.inl hT)
        · exact List.mem_append.mpr (Or.inr (List.mem_cons_of_mem S hT))
      have hcount1 : hitCount S (b.previousHits ++ [c]) = hitCount S b.previousHits + 1 :=
        hitCount_append_mem hwfS.2.2.1 hmem hc_not_hit
      rcases hsub with ⟨hne1, rfl, -⟩ | ⟨hc1, hits2, hrm, rfl, -⟩
      · refine ⟨?_, ?_, ?_, ?_, ?_, ?_⟩
        · intro T hT
          dsimp only at hT ⊢
          rw [hbn]
          rcases List.mem_append.mp hT with hT1 | hT2
          · exact hInv.wf T (hmemT T (Or.inl hT1))
          · rcases List.mem_cons.mp hT2 with rfl | hT3
            · exact shipWf_damage.mpr hwfS
            · exact hInv.wf T (hmemT T (Or.inr hT3))
        · dsimp only
          rw [List.pairwise_append]
          refine ⟨pd1, ?_, ?_⟩
          · rw [List.pairwise_cons]
            exact ⟨fun T hT p hp => pdc.1 T hT p hp, pdc.2⟩
          · intro a ha b' hb'
            rcases List.mem_cons.mp hb' with rfl | hb2
            · exact fun p hp hpd => pd12 a ha S (List.mem_cons_self S l2) p hp hpd
            · exact pd12 a ha b' (List.mem_cons_of_mem S hb2)
        · intro T hT
          dsimp only at hT
          rcases List.mem_append.mp hT with hT1 | hT2
          · exact hInv.pos T (hmemT T (Or.inl hT1))
          · rcases List.mem_cons.mp hT2 with rfl | hT3
            · show 1 ≤ S.condition - 1
              have := hInv.pos S hSmem
              omega
            · exact hInv.pos T (hmemT T (Or.inr hT3))
        · intro T hT
          dsimp only at hT ⊢
          rcases List.mem_append.mp hT with hT1 | hT2
          · rw [hitCount_append_not (h_l1 T hT1)]
            exact hInv.cond_eq T (hmemT T (Or.inl hT1))
          · rcases List.mem_cons.mp hT2 with rfl | hT3
            · show S.condition - 1 = (S.length : Int) - (hitCount S (b.previousHits ++ [c]) : Int)
              rw [hcount1, hce]
              push_cast
              ring
            · rw [hitCount_append_not (h_l2 T hT3)]
              exact hInv.cond_eq T (hmemT T (Or.inr hT3))
        · dsimp only
          exact hits1_nodup
        · intro p hp
          dsimp only at hp
          rw [bGet_ships_hits p]
          exact hits_two_bb p hp
      · have hcle : hitCount S b.previousHits ≤ S.length := by
          have := hitCount_le S b.previousHits
          rw [hwfS.1] at this
          exact this
        have hl2 : 2 ≤ S.length := hwfS.2.1
        have hcount_hits : hitCount S b.previousHits = S.length - 1 := by omega
        have hcount1' : hitCount S (b.previousHits ++ [c]) = S.length := by omega
        have hflen : (S.cells.filter
            (fun p => decide (p ∈ b.previousHits ++ [c]))).length = S.cells.length := by
          have h0 := hcount1'
          unfold hitCount at h0
          rw [h0, hwfS.1]
        have hall : ∀ p ∈ S.cells, p ∈ b.previousHits ++ [c] :=
          fun p hp => of_decide_eq_true (filter_length_all _ _ hflen p hp)
        have hremove : removeAll S.cells (b.previousHits ++ [c])
            = some ((b.previousHits ++ [c]).filter (fun q => decide (q ∉ S.cells))) :=
          removeAll_spec S.cells _ hits1_nodup hwfS.2.2.1 hall
        have hhits2 : hits2
            = (b.previousHits ++ [c]).filter (fun q => decide (q ∉ S.cells)) :=
          Option.some_inj.mp (hrm.symm.trans hremove)
        have hTdS : ∀ T, T ∈ l1 ∨ T ∈ l2 → ∀ p ∈ T.cells, p ∉ S.cells := by
          intro T hT p hp hpS
          rcases hT with hT | hT
          · exact hl1_S T hT p hp hpS
          · exact pdc.1 T hT p hpS hp
        refine ⟨?_, ?_, ?_, ?_, ?_, ?_⟩
        · intro T hT
          dsimp only at hT ⊢
          rw [hbn]
          rcases List.mem_append.mp hT with hT1 | hT2
          · exact hInv.wf T (hmemT T (Or.inl hT1))
          · exact hInv.wf T (hmemT T (Or.inr hT2))
        · dsimp only
          rw [List.pairwise_append]
          exact ⟨pd1, pdc.2, fun a ha b' hb' => pd12 a ha b' (List.mem_cons_of_mem S hb')⟩
        · intro T hT
          dsimp only at hT
          rcases List.mem_append.mp hT with hT1 | hT2
          · exact hInv.pos T (hmemT T (Or.inl hT1))
          · exact hInv.pos T (hmemT T (Or.inr hT2))
        · intro T hT
          dsimp only at hT ⊢
          have hTor : T ∈ l1 ∨ T ∈ l2 := List.mem_append.mp hT
          have hc_not_T : c ∉ T.cells := fun hcT => hTdS T hTor c hcT hmem
          have e1 : hitCount T hits2 = hitCount T (b.previousHits ++ [c]) := by
            unfold hitCount
            apply count_congr
            intro p hp
            rw [hhits2, List.mem_filter]
            simp [hTdS T hTor p hp]
          rw [e1, hitCount_append_not hc_not_T]
          exact hInv.cond_eq T (hmemT T hTor)
        · dsimp only
          rw [hhits2]
          exact List.Nodup.filter _ hits1_nodup
        · intro p hp
          dsimp only at hp
          rw [hhits2, List.mem_filter] at hp
          rw [bGet_ships_hits p]
          exact hits_two_bb p hp.1
  case neg =>
    unfold apply_shot applyShotAmbient at h
    rw [hv] at h
    dsimp only at h
    rw [if_neg hv1] at h
    by_cases hv0 : v = 0
    · subst hv0
      rw [if_pos rfl] at h
      obtain ⟨r, k, h1, h2, hg⟩ := bGet_some_npIdx hv
      have hset := bSet_of_npIdx (b := b) (c := c) (w := 3) h1 h2
      rw [hset, Option.map_some'] at h
      have hpair := Option.some_inj.mp h
      have hb2 : b2 = { b with grid := fun q => if q = (r, k) then 3 else b.grid q } :=
        (congrArg Prod.fst hpair).symm
      subst hb2
      refine ⟨hInv.wf, hInv.disj, hInv.pos, hInv.cond_eq, hInv.hits_nodup, ?_⟩
      intro p hp
      dsimp only at hp
      have h2p := hInv.hits_two p hp
      rcases bGet_bSet_cases hset p with heq | ⟨e1, e2, hval⟩
      · rw [heq]
        exact h2p
      · have := bGet_eq_of_npIdx_eq e1 e2
        rw [hv, h2p] at this
        cases Option.some_inj.mp this
    · rw [if_neg hv0] at h
      have hpair := Option.some_inj.mp h
      have hb2 : b2 = b := (congrArg Prod.fst hpair).symm
      subst hb2
      exact hInv

theorem reach_binv : ∀ b : Board, Reach b → BInv b := by
  intro b h
  induction h with
  | placed hp => exact pinv_inv (placed_pinv _ hp)
  | shot _ hstep ih => exact binv_step ih hstep

theorem apply_shot_step_facts {b b2 : Board} {c : Coord} {rep : ShotReport}
    (hInv : BInv b) (h : apply_shot b c = some (b2, rep)) :
    (∀ T ∈ b2.ships, ∃ S0 ∈ b.ships, S0.cells = T.cells ∧ S0.length = T.length ∧
        (T.condition = S0.condition ∨ T.condition = S0.condition - 1)) ∧
    (∀ S ∈ b.ships, (∀ T ∈ b2.ships, T.cells ≠ S.cells) →
        bGet b c = some 1 ∧ c ∈ S.cells ∧ S.condition = 1) ∧
    (∀ S ∈ b.ships, bGet b c = some 1 → c ∈ S.cells → S.condition = 1 →
        (∀ T ∈ b2.ships, T.cells ≠ S.cells) ∧ ∀ p ∈ S.cells, p ∉ b2.previousHits) := by
  have hvex : ∃ v, bGet b c = some v := by
    unfold apply_shot applyShotAmbient at h
    cases hb : bGet b c with
    | none => rw [hb] at h; cases h
    | some v => exact ⟨v, rfl⟩
  obtain ⟨v, hv⟩ := hvex
  by_cases hv1 : v = 1
  case pos =>
    subst hv1
    obtain ⟨bb, hset, hbn, hbs, hbh, hcases⟩ := apply_shot_hit_char hInv.disj hv h
    have hc_not_hit : c ∉ b.previousHits := by
      intro hch
      have h2 := hInv.hits_two c hch
      rw [hv] at h2
      cases Option.some_inj.mp h2
    have hits1_nodup : (b.previousHits ++ [c]).Nodup := by
      rw [List.nodup_append]
      exact ⟨hInv.hits_nodup, List.nodup_singleton c,
        fun a ha hamem => hc_not_hit ((List.mem_singleton.mp hamem) ▸ ha)⟩
    rcases hcases with ⟨hnone, rfl, -⟩ | ⟨l1, S, l2, hsplit, hmem, h_l1, h_l2, hsub⟩
    · refine ⟨?_, ?_, ?_⟩
      · intro T hT
        dsimp only at hT
        rw [hbs] at hT
        exact ⟨T, hT, rfl, rfl, Or.inl rfl⟩
      · intro S hS hrem
        exfalso
        apply hrem S ?_ rfl
        dsimp only
        rw [hbs]
        exact hS
      · intro S hS hv' hcS hc1
        exact absurd hcS (hnone S hS)
    · have hSmem : S ∈ b.ships := by
        rw [hsplit]
        exact List.mem_append.mpr (Or.inr (List.mem_cons_self S l2))
      have hwfS := hInv.wf S hSmem
      have hce := hInv.cond_eq S hSmem
      have hmemT : ∀ T, T ∈ l1 ∨ T ∈ l2 → T ∈ b.ships := by
        intro T hT
        rw [hsplit]
        rcases hT with hT | hT
        · exact List.mem_append.mpr (Or.inl hT)
        · exact List.mem_append.mpr (Or.inr (List.mem_cons_of_mem S hT))
      have hcount1 : hitCount S (b.previousHits ++ [c]) = hitCount S b.previousHits + 1 :=
        hitCount_append_mem hwfS.2.2.1 hmem hc_not_hit
      have honly : ∀ T ∈ b.ships, c ∈ T.cells → T = S := by
        intro T hT hcT
        rw [hsplit] at hT
        rcases List.mem_append.mp hT with h1' | h2'
        · exact absurd hcT (h_l1 T h1')
        · rcases List.mem_cons.mp h2' with rfl | h3'
          · rfl
          · exact absurd hcT (h_l2 T h3')
      rcases hsub with ⟨hne1, rfl, -⟩ | ⟨hc1, hits2, hrm, rfl, -⟩
      · refine ⟨?_, ?_, ?_⟩
        · intro T hT
          dsimp only at hT
          rcases List.mem_append.mp hT with hT1 | hT2
          · exact ⟨T, hmemT T (Or.inl hT1), rfl, rfl, Or.inl rfl⟩
          · rcases List.mem_cons.mp hT2 with rfl | hT3
            · exact ⟨S, hSmem, rfl, rfl, Or.inr rfl⟩
            · exact ⟨T, hmemT T (Or.inr hT3), rfl, rfl, Or.inl rfl⟩
        · intro S' hS' hrem
          exfalso
          rw [hsplit] at hS'
          rcases List.mem_append.mp hS' with h1' | h2'
          · exact hrem S' (by
              dsimp only
              exact List.mem_append.mpr (Or.inl h1')) rfl
          · rcases List.mem_cons.mp h2' with rfl | h3'
            · exact hrem (damage S') (by
                dsimp only
                exact List.mem_append.mpr (Or.inr (List.mem_cons_self _ _))) rfl
            · exact hrem S' (by
                dsimp only
                exact List.mem_append.mpr (Or.inr (List.mem_cons_of_mem _ h3'))) rfl
        · intro S' hS' hv' hcS' hc1'
          have heq := honly S' hS' hcS'
          subst heq
          exact absurd hc1' hne1
      · have hcle : hitCount S b.previousHits ≤ S.length := by
          have := hitCount_le S b.previousHits
          rw [hwfS.1] at this
          exact this
        have hl2' : 2 ≤ S.length := hwfS.2.1
        have hcount1' : hitCount S (b.previousHits ++ [c]) = S.length := by omega
        have hflen : (S.cells.filter
            (fun p => decide (p ∈ b.previousHits ++ [c]))).length = S.cells.length := by
          have h0 := hcount1'
          unfold hitCount at h0
          rw [h0, hwfS.1]
        have hall : ∀ p ∈ S.cells, p ∈ b.previousHits ++ [c] :=
          fun p hp => of_decide_eq_true (filter_length_all _ _ hflen p hp)
        have hremove : removeAll S.cells (b.previousHits ++ [c])
            = some ((b.previousHits ++ [c]).filter (fun q => decide (q ∉ S.cells))) :=
          removeAll_spec S.cells _ hits1_nodup hwfS.2.2.1 hall
        have hhits2 : hits2
            = (b.previousHits ++ [c]).filter (fun q => decide (q ∉ S.cells)) :=
          Option.some_inj.mp (hrm.symm.trans hremove)
        refine ⟨?_, ?_, ?_⟩
        · intro T hT
          dsimp only at hT
          rcases List.mem_append.mp hT with hT1 | hT2
          · exact ⟨T, hmemT T (Or.inl hT1), rfl, rfl, Or.inl rfl⟩
          · exact ⟨T, hmemT T (Or.inr hT2), rfl, rfl, Or.inl rfl⟩
        · intro S' hS' hrem
          rw [hsplit] at hS'
          rcases List.mem_append.mp hS' with h1' | h2'
          · exact absurd rfl (hrem S' (by
              dsimp only
              exact List.mem_append.mpr (Or.inl h1')))
          · rcases List.mem_cons.mp h2' with rfl | h3'
            · exact ⟨hv, hmem, hc1⟩
            · exact absurd rfl (hrem S' (by
                dsimp only
                exact List.mem_append.mpr (Or.inr h3')))
        · intro S' hS' hv' hcS' hc1'
          have heq := honly S' hS' hcS'
          subst heq
          refine ⟨?_, ?_⟩
          · intro T hT hTc
            dsimp only at hT
            rcases List.mem_append.mp hT with hT1 | hT2
            · exact h_l1 T hT1 (hTc ▸ hmem)
            · exact h_l2 T hT2 (hTc ▸ hmem)
          · intro p hp hpin
            dsimp only at hpin
            rw [hhits2, List.mem_filter] at hpin
            exact (of_decide_eq_true hpin.2) hp
  case neg =>
    unfold apply_shot applyShotAmbient at h
    rw [hv] at h
    dsimp only at h
    rw [if_neg hv1] at h
    by_cases hv0 : v = 0
    · subst hv0
      rw [if_pos rfl] at h
      obtain ⟨r, k, h1, h2, hg⟩ := bGet_some_npIdx hv
      have hset := bSet_of_npIdx (b := b) (c := c) (w := 3) h1 h2
      rw [hset, Option.map_some'] at h
      have hpair := Option.some_inj.mp h
      have hb2 : b2 = { b with grid := fun q => if q = (r, k) then 3 else b.grid q } :=
        (congrArg Prod.fst hpair).symm
      subst hb2
      refine ⟨?_, ?_, ?_⟩
      · intro T hT
        exact ⟨T, hT, rfl, rfl, Or.inl rfl⟩
      · intro S hS hrem
        exact absurd rfl (hrem S hS)
      · intro S hS hv' hcS hc1
        rw [hv] at hv'
        cases Option.some_inj.mp hv'
    · rw [if_neg hv0] at h
      have hpair := Option.some_inj.mp h
      have hb2 : b2 = b := (congrArg Prod.fst hpair).symm
      subst hb2
      refine ⟨?_, ?_, ?_⟩
      · intro T hT
        exact ⟨T, hT, rfl, rfl, Or.inl rfl⟩
      · intro S hS hrem
        exact absurd rfl (hrem S hS)
      · intro S hS hv' hcS hc1
        rw [hv] at hv'
        exact absurd (Option.some_inj.mp hv') hv1

/-- Claim C4: in every reachable state (valid placements then shots), every
ship in `ships` has positive remaining health; when a shot lands on an
un-hit cell of a ship whose health is 1 (so the shot drives it to 0), the
ship is removed from `ships` and every one of its cells is removed from
`_previous_hits`; and conversely a ship that disappears from `ships` on a
shot was exactly such a just-sunk ship. -/
theorem reach_sink_consistency :
    ∀ b : Board, Reach b →
      (∀ S ∈ b.ships, 0 < S.condition) ∧
      (∀ c b2 rep, apply_shot b c = some (b2, rep) →
        (∀ S ∈ b.ships, bGet b c = some 1 → c ∈ S.cells → S.condition = 1 →
          (∀ T ∈ b2.ships, T.cells ≠ S.cells) ∧ ∀ p ∈ S.cells, p ∉ b2.previousHits) ∧
        (∀ S ∈ b.ships, (∀ T ∈ b2.ships, T.cells ≠ S.cells) →
          bGet b c = some 1 ∧ c ∈ S.cells ∧ S.condition = 1)) := by
  intro b hreach
  have hInv := reach_binv b hreach
  refine ⟨fun S hS => hInv.pos S hS, ?_⟩
  intro c b2 rep h
  obtain ⟨-, f2, f3⟩ := apply_shot_step_facts hInv h
  exact ⟨f3, f2⟩

/-- Claim C7: in every reachable state every ship's remaining health lies
in [0, length]; and across any successful `apply_shot` step each surviving
ship corresponds to a pre-state ship with the same cells and length and a
health that has not increased. -/
theorem reach_health_bounds :
    ∀ b : Board, Reach b →
      (∀ S ∈ b.ships, 0 ≤ S.condition ∧ S.condition ≤ (S.length : Int)) ∧
      (∀ c b2 rep, apply_shot b c = some (b2, rep) →
        ∀ T ∈ b2.ships, ∃ S ∈ b.ships, S.cells = T.cells ∧ S.length = T.length ∧
          T.condition ≤ S.condition) := by
  intro b hreach
  have hInv := reach_binv b hreach
  constructor
  · intro S hS
    have hce := hInv.cond_eq S hS
    have hle : hitCount S b.previousHits ≤ S.length := by
      have := hitCount_le S b.previousHits
      rw [(hInv.wf S hS).1] at this
      exact this
    constructor <;> omega
  · intro c b2 rep h T hT
    obtain ⟨f1, -, -⟩ := apply_shot_step_facts hInv h
    obtain ⟨S0, hS0, hc, hl, hcond⟩ := f1 T hT
    refine ⟨S0, hS0, hc, hl, ?_⟩
    rcases hcond with h' | h' <;> omega

theorem placed_wB1 : Placed wB1 :=
  @Placed.place (mkBoard 2) wB1 2 (0, 0) Dir.E ((mkShip 2 (0, 0) Dir.E).getD exC2ship)
    (Placed.init 2) rfl (by decide) (by decide) rfl

theorem reach_wB2 : Reach wB2 :=
  @Reach.shot wB1 wB2 (0, 0) (ShotReport.hit []) (Reach.placed placed_wB1) rfl

/-- Witness for `reach_sink_consistency`: on the concrete reachable board
`wB2` (a 2×2 board whose destroyer at (0,0),(0,1) has been hit at (0,0)),
the shot at (0,1) sinks the destroyer: it leaves `ships` and both its cells
leave `_previous_hits`. -/
theorem reach_sink_consistency_witness :
    (∀ S ∈ wB2.ships, 0 < S.condition) ∧
    (∀ T ∈ wB3.ships, T.cells ≠ wShipD.cells) ∧
    (∀ p ∈ wShipD.cells, p ∉ wB3.previousHits) := by
  obtain ⟨hpos, hstep⟩ := reach_sink_consistency wB2 reach_wB2
  obtain ⟨f3, -⟩ := hstep (0, 1) wB3 (ShotReport.hit ["Destroyer"]) rfl
  obtain ⟨hgone, hclean⟩ := f3 wShipD (by decide) (by decide) (by decide) (by decide)
  exact ⟨hpos, hgone, hclean⟩

/-- Witness for `reach_health_bounds` on the reachable board `wB1` and the
hit at (0,0). -/
theorem reach_health_bounds_witness :
    (∀ S ∈ wB1.ships, 0 ≤ S.condition ∧ S.condition ≤ (S.length : Int)) ∧
    (∀ T ∈ wB2.ships, ∃ S ∈ wB1.ships, S.cells = T.cells ∧ S.length = T.length ∧
      T.condition ≤ S.condition) := by
  obtain ⟨hbounds, hmono⟩ := reach_health_bounds wB1 (Reach.placed placed_wB1)
  exact ⟨hbounds, hmono (0, 0) wB2 (ShotReport.hit []) rfl⟩
